import Mathlib

/-!
PriceHub: the search pipeline of `Server/index.js`.

A shallow embedding of the server's query orchestration: the price
normalisation and record assembly of `saveProducts`, the persisted `Product`
collection with its unique `id` index, and the `/api/search` handler with its
five-minute freshness check.

Conventions of the embedding

* A JavaScript string is a Lean `String`, read through its list of characters.
* A JavaScript number is a `JSNumber`: `NaN`, the two infinities, or a finite
  binary64 value held as the rational it denotes. `+0` and `-0` are one value
  (both are falsy, compare equal and serialise alike).
* Times are milliseconds since the epoch, as integers.
* The database, the clock and the site adapters are the request's `World`.
-/

namespace PriceHub

/-! ## JavaScript numbers -/

/-- A JavaScript Number value. -/
inductive JSNumber where
  | nan : JSNumber
  | posInf : JSNumber
  | negInf : JSNumber
  | fin (q : ℚ) : JSNumber
  deriving DecidableEq

namespace JSNumber

/-- The test `x > 0` of JavaScript: false on `NaN`. -/
def gtZero : JSNumber → Bool
  | nan => false
  | posInf => true
  | negInf => false
  | fin q => decide (0 < q)

/-- The test `x < 0` of JavaScript: false on `NaN`. -/
def ltZero : JSNumber → Bool
  | nan => false
  | posInf => false
  | negInf => true
  | fin q => decide (q < 0)

/-- Truthiness of a number: everything except `NaN` and zero. -/
def truthy : JSNumber → Bool
  | nan => false
  | posInf => true
  | negInf => true
  | fin q => decide (q ≠ 0)

/-- The expression `x || 0`. -/
def orZero (x : JSNumber) : JSNumber :=
  if x.truthy then x else fin 0

end JSNumber

/-- Round a rational to the nearest integer, ties to even. -/
def roundHalfEven (q : ℚ) : ℤ :=
  let f : ℤ := Rat.floor q
  let r : ℚ := q - f
  if r < 1 / 2 then f
  else if 1 / 2 < r then f + 1
  else if f % 2 = 0 then f else f + 1

/-- The power `2 ^ e` for an integer exponent, as a rational. -/
def twoPow (e : ℤ) : ℚ :=
  match e with
  | Int.ofNat n => (2 : ℚ) ^ n
  | Int.negSucc n => 1 / (2 : ℚ) ^ (n + 1)

/-- The floor of the binary logarithm by repeated halving; `fuel` bounds the
number of halvings. -/
def log2Floor : ℕ → ℕ → ℕ
  | 0, _ => 0
  | fuel + 1, n => if n < 2 then 0 else log2Floor fuel (n / 2) + 1

/-- The binary exponent of a positive rational `a / b`: the `e` with
`2 ^ e ≤ a / b < 2 ^ (e + 1)`. -/
def binaryExponent (a b : ℕ) : ℤ :=
  let e : ℤ := (log2Floor a a : ℤ) - (log2Floor b b : ℤ)
  if (a : ℚ) / (b : ℚ) < twoPow e then e - 1 else e

/-- The binary64 value nearest to a non-negative rational (round to nearest,
ties to even, gradual underflow, overflow to infinity), or `none` on
overflow. -/
def roundBinary64 (q : ℚ) : Option ℚ :=
  if q = 0 then some 0
  else
    let e : ℤ := max (binaryExponent q.num.natAbs q.den) (-1022)
    let ulp : ℚ := twoPow (e - 52)
    let r : ℚ := (roundHalfEven (q / ulp) : ℚ) * ulp
    if twoPow 1024 ≤ r then none else some r

/-- The Number value of a real written in decimal: the nearest binary64. -/
def JSNumber.ofRat (q : ℚ) : JSNumber :=
  if q < 0 then
    match roundBinary64 (-q) with
    | some r => JSNumber.fin (-r)
    | none => JSNumber.negInf
  else
    match roundBinary64 q with
    | some r => JSNumber.fin r
    | none => JSNumber.posInf

/-! ## JavaScript strings -/

/-- White space and line terminators, as `String.prototype.trim` and
`parseFloat` skip them. -/
def isWhiteSpace (c : Char) : Bool :=
  let n := c.toNat
  n = 0x09 || n = 0x0A || n = 0x0B || n = 0x0C || n = 0x0D || n = 0x20 ||
  n = 0xA0 || n = 0x1680 || (0x2000 ≤ n && n ≤ 0x200A) || n = 0x2028 ||
  n = 0x2029 || n = 0x202F || n = 0x205F || n = 0x3000 || n = 0xFEFF

/-- The method `String.prototype.trim` on a list of characters. -/
def trimChars (cs : List Char) : List Char :=
  ((cs.dropWhile isWhiteSpace).reverse.dropWhile isWhiteSpace).reverse

/-- The method `String.prototype.trim`. -/
def trim (s : String) : String := ⟨trimChars s.data⟩

/-- The method `String.prototype.toLowerCase`, on the ASCII letters (the case
table of the other scripts is not part of the repository). -/
def toLowerCase (s : String) : String := ⟨s.data.map Char.toLower⟩

/-- Truthiness of a string: non-empty. -/
def truthyStr (s : String) : Bool := !s.data.isEmpty

/-- A decimal digit `0`..`9`. -/
def isDecimalDigit (c : Char) : Bool := 0x30 ≤ c.toNat && c.toNat ≤ 0x39

/-- The value of a decimal digit. -/
def digitValue (c : Char) : ℕ := c.toNat - '0'.toNat

/-- The natural number written by a list of decimal digits. -/
def digitsValue (ds : List Char) : ℕ :=
  ds.foldl (fun acc c => 10 * acc + digitValue c) 0

/-! ## `parseFloat` -/

/-- The digits of a `SignedInteger` after its sign, with the sign as `1` or
`-1`; without a digit there is no exponent part and the exponent is `0`. -/
def exponentDigits (sign : ℤ) (ds : List Char) : ℤ :=
  if (ds.takeWhile isDecimalDigit).isEmpty then 0
  else sign * (digitsValue (ds.takeWhile isDecimalDigit) : ℤ)

/-- The optional `ExponentPart` of a `StrDecimalLiteral`: `e` or `E`, an
optional sign and at least one digit; anything else is not part of the
literal and counts as exponent `0`. -/
def parseExponent : List Char → ℤ
  | [] => 0
  | c :: rest =>
    if c = 'e' ∨ c = 'E' then
      match rest with
      | [] => 0
      | s :: ds =>
        if s = '+' then exponentDigits 1 ds
        else if s = '-' then exponentDigits (-1) ds
        else exponentDigits 1 (s :: ds)
    else 0

/-- The power `10 ^ e` for an integer exponent, as a rational. -/
def tenPow (e : ℤ) : ℚ :=
  match e with
  | Int.ofNat n => (10 : ℚ) ^ n
  | Int.negSucc n => 1 / (10 : ℚ) ^ (n + 1)

/-- The mathematical value of an unsigned decimal literal with integer digits,
fraction digits and exponent. -/
def decimalValue (ip fp : List Char) (ex : ℤ) : ℚ :=
  ((digitsValue ip : ℚ) + (digitsValue fp : ℚ) / (10 : ℚ) ^ fp.length) * tenPow ex

/-- The characters of the literal `Infinity`. -/
def infinityChars : List Char := ['I', 'n', 'f', 'i', 'n', 'i', 't', 'y']

/-- The longest prefix of the text that is a `StrUnsignedDecimalLiteral`, read
as a number: `none` when no prefix is one, `some none` for `Infinity`. -/
def parseUnsigned (u : List Char) : Option (Option ℚ) :=
  if infinityChars.isPrefixOf u then some none
  else
    let ip := u.takeWhile isDecimalDigit
    match u.dropWhile isDecimalDigit with
    | [] => if ip.isEmpty then none else some (some (decimalValue ip [] 0))
    | c :: r =>
      if c = '.' then
        let fp := r.takeWhile isDecimalDigit
        if ip.isEmpty && fp.isEmpty then none
        else some (some (decimalValue ip fp (parseExponent (r.dropWhile isDecimalDigit))))
      else if ip.isEmpty then none
      else some (some (decimalValue ip [] (parseExponent (c :: r))))

/-- The Number value of a parsed literal with its sign. -/
def signedValue (negative : Bool) : Option (Option ℚ) → JSNumber
  | none => JSNumber.nan
  | some none => if negative then JSNumber.negInf else JSNumber.posInf
  | some (some q) => JSNumber.ofRat (if negative then -q else q)

/-- The global function `parseFloat` on a list of characters: skip leading
white space, read an optional sign, then the longest numeric prefix. -/
def parseFloatChars (cs : List Char) : JSNumber :=
  match cs.dropWhile isWhiteSpace with
  | [] => JSNumber.nan
  | c :: u =>
    if c = '-' then signedValue true (parseUnsigned u)
    else if c = '+' then signedValue false (parseUnsigned u)
    else signedValue false (parseUnsigned (c :: u))

/-- The global function `parseFloat`. -/
def parseFloat (s : String) : JSNumber := parseFloatChars s.data

/-! ## Price normalisation (`saveProducts`, lines 53-54) -/

/-- The character class `[$,₹]` of the price regular expression. -/
def isPriceSymbol (c : Char) : Bool := c = '$' || c = ',' || c = '₹'

/-- The call `.replace(/[$,₹]/g, '')`: scan the text and delete every match of
the character class. -/
def stripPriceSymbols : List Char → List Char
  | [] => []
  | c :: cs => if isPriceSymbol c then stripPriceSymbols cs else c :: stripPriceSymbols cs

/-- The text that is parsed:
`product.price.toString().replace(/[$,₹]/g, '').trim()`. -/
def cleanPriceText (price : String) : String :=
  trim ⟨stripPriceSymbols price.data⟩

/-- The normalised price: `parseFloat(cleanPrice) || 0`. -/
def cleanPrice (price : String) : JSNumber :=
  (parseFloat (cleanPriceText price)).orZero

/-! ## Records -/

/-- A raw listing, as a site adapter returns it. -/
structure RawProduct where
  platform : String
  name : String
  price : String
  image : Option String
  link : Option String
  deriving DecidableEq

/-- An element of `productsToSave`: the raw listing with its price replaced by
the normalised one and with the search key and the sequence id attached. -/
structure SavedProduct where
  platform : String
  name : String
  price : JSNumber
  image : Option String
  link : Option String
  searchQuery : String
  searchPlatforms : String
  id : ℕ
  deriving DecidableEq

/-- A persisted document of the `Product` collection (`productSchema`). -/
structure ProductDoc where
  id : ℕ
  platform : String
  name : String
  price : JSNumber
  image : Option String
  link : Option String
  searchQuery : String
  searchPlatforms : String
  searchedAt : ℤ
  deriving DecidableEq

/-- The public shape `{id, platform, name, price, image, link}`. -/
structure Projected where
  id : ℕ
  platform : String
  name : String
  price : JSNumber
  image : Option String
  link : Option String
  deriving DecidableEq

/-! ## `saveProducts`: assembly (lines 52-63) -/

/-- The method `Array.prototype.map` with the element index, counting from
`i`. -/
def mapIndexFrom {α β : Type} (f : α → ℕ → β) : List α → ℕ → List β
  | [], _ => []
  | a :: as, i => f a i :: mapIndexFrom f as (i + 1)

/-- The callback of `products.map` in `saveProducts`. -/
def assembleOne (query platformsString : String) (startId step : ℕ)
    (product : RawProduct) (index : ℕ) : SavedProduct :=
  { platform := product.platform
    name := product.name
    price := cleanPrice product.price
    image := product.image
    link := product.link
    searchQuery := toLowerCase query
    searchPlatforms := platformsString
    id := startId + index * step }

/-- The predicate of `.filter(p => p.price > 0 && p.name)`. -/
def keepSaved (p : SavedProduct) : Bool := p.price.gtZero && truthyStr p.name

/-- The list `productsToSave` of `saveProducts`. -/
def productsToSave (products : List RawProduct) (query platformsString : String)
    (startId step : ℕ) : List SavedProduct :=
  (mapIndexFrom (assembleOne query platformsString startId step) products 0).filter keepSaved

/-! ## The `Product` collection -/

/-- The filter `{ searchQuery, searchPlatforms }` of a database query. -/
def matchesKey (query platformsString : String) (d : ProductDoc) : Bool :=
  d.searchQuery = query && d.searchPlatforms = platformsString

/-- The call `Product.deleteMany({ searchQuery, searchPlatforms })`. -/
def deleteMany (store : List ProductDoc) (query platformsString : String) : List ProductDoc :=
  store.filter (fun d => !matchesKey query platformsString d)

/-- The document Mongoose builds from an element of `productsToSave`;
`searchedAt` takes its default, the clock reading at that moment. -/
def toDoc (p : SavedProduct) (searchedAt : ℤ) : ProductDoc :=
  { id := p.id
    platform := p.platform
    name := p.name
    price := p.price
    image := p.image
    link := p.link
    searchQuery := p.searchQuery
    searchPlatforms := p.searchPlatforms
    searchedAt := searchedAt }

/-- Schema validation of a document: the required strings are non-empty (the
required numbers are always present in a `ProductDoc`). -/
def validDoc (d : ProductDoc) : Bool :=
  truthyStr d.platform && truthyStr d.name && truthyStr d.searchQuery &&
    truthyStr d.searchPlatforms

/-- One write of an unordered bulk insert: a document that fails validation or
whose `id` is already in the collection (the unique index) is skipped. -/
def insertOne (store : List ProductDoc) (d : ProductDoc) : List ProductDoc :=
  if validDoc d && !store.any (fun e => e.id = d.id) then store ++ [d] else store

/-- The call `Product.insertMany(docs, { ordered: false })`: every document is
attempted, in order; the ones that fail are skipped. -/
def insertMany (store : List ProductDoc) (docs : List ProductDoc) : List ProductDoc :=
  docs.foldl insertOne store

/-- The call `.sort({ id: 1 })` and, on distinct ids, `sort((a, b) => a.id - b.id)`:
a stable sort by `id` ascending. -/
def sortById {α : Type} (id : α → ℕ) (xs : List α) : List α :=
  xs.insertionSort (fun a b => id a ≤ id b)

/-! ## The world of one request -/

/-- What a site adapter call does: it resolves to raw listings or rejects. -/
inductive AdapterResult where
  | returns (products : List RawProduct) : AdapterResult
  | throws : AdapterResult

/-- An observable effect of a request. -/
inductive Event where
  | findOne : Event
  | find : Event
  | scrape (slot : ℕ) (scraper : String) : Event
  | deleteMany (slot : ℕ) : Event
  | insertMany (slot : ℕ) (count : ℕ) : Event
  deriving DecidableEq

/-- Everything outside the handler that a request meets: the clock, the
database connection and the adapters. `slot` is `1` for the first platform of
the request and `2` for the second. -/
structure World where
  /-- The reading of `Date.now()` when the cache cutoff is computed. -/
  now : ℤ
  /-- Whether `Product.findOne` rejects (database unavailable). -/
  findOneFails : Bool
  /-- Whether `Product.find` rejects. -/
  findFails : Bool
  /-- The outcome of calling the named scraper with the query. -/
  scrape : ℕ → String → String → AdapterResult
  /-- Whether `Product.deleteMany` rejects in the given slot. -/
  deleteFails : ℕ → Bool
  /-- Whether `Product.insertMany` rejects as a whole in the given slot. -/
  insertFails : ℕ → Bool
  /-- The reading of `Date.now()` when the given document of the given slot is
  built. -/
  stamp : ℕ → ℕ → ℤ

/-- The result of `saveProducts`: its return value, the collection afterwards
and the database calls it made. -/
structure SaveOutcome where
  saved : List SavedProduct
  store : List ProductDoc
  trace : List Event

/-- The function `saveProducts` (lines 51-83). The `platform` argument is only
logged. -/
def saveProducts (w : World) (slot : ℕ) (store : List ProductDoc)
    (products : List RawProduct) (query platformsString : String)
    (startId step : ℕ) : SaveOutcome :=
  let toSave := productsToSave products query platformsString startId step
  if toSave.isEmpty then
    { saved := [], store := store, trace := [] }
  else if w.deleteFails slot then
    { saved := toSave, store := store, trace := [Event.deleteMany slot] }
  else
    let store1 := deleteMany store (toLowerCase query) platformsString
    if w.insertFails slot then
      { saved := toSave, store := store1,
        trace := [Event.deleteMany slot, Event.insertMany slot 0] }
    else
      let docs := mapIndexFrom (fun p i => toDoc p (w.stamp slot i)) toSave 0
      let store2 := insertMany store1 docs
      { saved := toSave, store := store2,
        trace := [Event.deleteMany slot,
          Event.insertMany slot (store2.length - store1.length)] }

/-! ## The handler of `/api/search` (lines 87-167) -/

/-- The query string of a request whose parameters are each absent or a
single string. A repeated or bracketed parameter, which Express parses to an
array or an object, is a `QueryParam` of an `ExpressRequest`, handled by
`apiSearchExpress`. -/
structure Request where
  q : Option String
  platforms : Option String

/-- The answer of the handler. -/
inductive Response where
  | ok (items : List Projected) : Response
  | badRequest : Response
  | serverError : Response
  deriving DecidableEq

/-- A handled request: the answer, the collection afterwards and the effects,
in order. -/
structure Outcome where
  response : Response
  store : List ProductDoc
  trace : List Event

/-- The method `String.prototype.split` with a one-character separator. -/
def splitOn (sep : Char) : List Char → List (List Char)
  | [] => [[]]
  | c :: cs =>
    if c = sep then [] :: splitOn sep cs
    else
      match splitOn sep cs with
      | [] => [[c]]
      | h :: t => (c :: h) :: t

/-- The platform list of line 95:
`platformsString.split(',').map(p => p.trim().toLowerCase()).slice(0, 2)`. -/
def resolvePlatforms (platformsString : String) : List String :=
  ((splitOn ',' platformsString.data).map (fun p => toLowerCase (trim ⟨p⟩))).take 2

/-- What `scraperMap[key]` evaluates to. -/
inductive MapEntry where
  /-- One of the four scrapers, by its key. -/
  | scraper (name : String) : MapEntry
  /-- A member inherited from `Object.prototype`: truthy, but calling it does
  not yield a list of listings. -/
  | inherited : MapEntry
  | undefined : MapEntry
  deriving DecidableEq

/-- The lookup `scraperMap[platform]`; `none` is the `undefined` of a missing
second platform. -/
def scraperMap : Option String → MapEntry
  | none => MapEntry.undefined
  | some key =>
    if key = "amazon" || key = "flipkart" || key = "meesho" || key = "myntra" then
      MapEntry.scraper key
    else if key = "constructor" || key = "__proto__" then MapEntry.inherited
    else MapEntry.undefined

/-- The projection `({ id, platform, name, price, image, link })` of a saved
product. -/
def projectSaved (p : SavedProduct) : Projected :=
  { id := p.id, platform := p.platform, name := p.name, price := p.price,
    image := p.image, link := p.link }

/-- The projection `({ id, platform, name, price, image, link })` of a
document. -/
def projectDoc (d : ProductDoc) : Projected :=
  { id := d.id, platform := d.platform, name := d.name, price := d.price,
    image := d.image, link := d.link }

/-- The cache duration, `CACHE_DURATION_MINUTES * 60 * 1000` milliseconds. -/
def cacheDurationMs : ℤ := 5 * 60 * 1000

/-- The query of line 105: the documents of the key with
`searchedAt >= CACHE_CUTOFF`, of which `findOne` returns the most recent. -/
def recentResult (store : List ProductDoc) (query platformsString : String) (now : ℤ) :
    Option ProductDoc :=
  ((store.filter (fun d => matchesKey query platformsString d &&
      decide (now - cacheDurationMs ≤ d.searchedAt))).insertionSort
    (fun a b => b.searchedAt ≤ a.searchedAt)).head?

/-- The query of line 115: the documents of the key, by `id` ascending. -/
def cachedProducts (store : List ProductDoc) (query platformsString : String) :
    List ProductDoc :=
  sortById ProductDoc.id (store.filter (matchesKey query platformsString))

/-- One scraping block of the handler (lines 134-141 and 144-151): `none` when
an exception leaves the block, else the products pushed to `allProducts`, with
the collection and the effects so far. -/
def scrapeSlot (w : World) (slot : ℕ) (platform : Option String) (query platformsString : String)
    (store : List ProductDoc) : Option (List SavedProduct) × List ProductDoc × List Event :=
  match scraperMap platform with
  | MapEntry.undefined => (some [], store, [])
  | MapEntry.inherited => (none, store, [])
  | MapEntry.scraper name =>
    match w.scrape slot name query with
    | AdapterResult.throws => (none, store, [Event.scrape slot name])
    | AdapterResult.returns products =>
      -- the start id of a block is its slot number (1, then 2); the step is 2
      let r := saveProducts w slot store products query platformsString slot 2
      (some r.saved, r.store, Event.scrape slot name :: r.trace)

/-- The handler of `GET /api/search`. -/
def apiSearch (w : World) (req : Request) (store : List ProductDoc) : Outcome :=
  match req.q.map toLowerCase, req.platforms with
  | none, _ => { response := Response.badRequest, store := store, trace := [] }
  | some _, none => { response := Response.badRequest, store := store, trace := [] }
  | some query, some platformsString =>
    if !truthyStr query || !truthyStr platformsString then
      { response := Response.badRequest, store := store, trace := [] }
    else
      let platforms := resolvePlatforms platformsString
      if w.findOneFails then
        { response := Response.serverError, store := store, trace := [Event.findOne] }
      else
        match recentResult store query platformsString w.now with
        | some _ =>
          if w.findFails then
            { response := Response.serverError, store := store,
              trace := [Event.findOne, Event.find] }
          else
            { response := Response.ok ((cachedProducts store query platformsString).map projectDoc),
              store := store, trace := [Event.findOne, Event.find] }
        | none =>
          match scrapeSlot w 1 platforms[0]? query platformsString store with
          | (none, store1, trace1) =>
            { response := Response.serverError, store := store1,
              trace := Event.findOne :: trace1 }
          | (some savedP1, store1, trace1) =>
            match scrapeSlot w 2 platforms[1]? query platformsString store1 with
            | (none, store2, trace2) =>
              { response := Response.serverError, store := store2,
                trace := Event.findOne :: (trace1 ++ trace2) }
            | (some savedP2, store2, trace2) =>
              { response := Response.ok
                  ((sortById SavedProduct.id (savedP1 ++ savedP2)).map projectSaved),
                store := store2, trace := Event.findOne :: (trace1 ++ trace2) }

/-! ## The number a price text writes -/

/-- The number written by the decimal digits and the decimal point of a text,
every other character left out: the integer that the digits write, divided by
ten to the number of digits that follow the point. -/
def writtenNumber (cs : List Char) : ℚ :=
  let digits := cs.filter isDecimalDigit
  let fraction := (cs.dropWhile (fun c => c != '.')).filter isDecimalDigit
  ((Nat.ofDigits 10 (digits.reverse.map digitValue) : ℕ) : ℚ) / (10 : ℚ) ^ fraction.length

/-! ## Interleaving -/

/-- Whether position `j` of the sorted list holds a record of the batch whose
turn it is: the first batch at even positions, the second at odd ones. -/
def fromBatchAt (sorted first second : List SavedProduct) (j : ℕ) : Bool :=
  match sorted[j]? with
  | some r => if j % 2 = 0 then decide (r ∈ first) else decide (r ∈ second)
  | none => false

/-- The first `k` elements of the sorted list alternate strictly between the
first batch and the second, starting with the first. -/
def Alternates (sorted first second : List SavedProduct) (k : ℕ) : Prop :=
  ∀ j, j < k → fromBatchAt sorted first second j = true

/-- The raw record passes the filter of `saveProducts`: its name is non-empty
and its normalised price is greater than 0. -/
def validRaw (raw : RawProduct) : Bool :=
  (cleanPrice raw.price).gtZero && truthyStr raw.name

/-- The two lists taken alternately, one element of each at a time, then the
rest of the longer one. -/
def interleave {α : Type} : List α → List α → List α
  | [], ys => ys
  | x :: xs, [] => x :: xs
  | x :: xs, y :: ys => x :: y :: interleave xs ys

/-- The ids of the list are `s`, `s + 2`, `s + 4`, ... in this order. -/
def IdsFrom : List SavedProduct → ℕ → Prop
  | [], _ => True
  | x :: xs, s => x.id = s ∧ IdsFrom xs (s + 2)

/-! ## Concrete requests -/

/-- A raw listing of the first platform. -/
def rawA : RawProduct :=
  { platform := "Amazon", name := "Phone A", price := "₹100", image := none, link := some "a" }

/-- A raw listing of the second platform. -/
def rawB : RawProduct :=
  { platform := "Flipkart", name := "Phone B", price := "₹200", image := none, link := some "b" }

/-- A raw listing without a name. -/
def rawNameless : RawProduct :=
  { platform := "Amazon", name := "", price := "₹50", image := none, link := some "n" }

/-- A world in which the database answers, the Amazon adapter returns `rawA`
and the Flipkart adapter returns `rawB`; the clock reads `now` throughout. -/
def bothReturn (now : ℤ) : World :=
  { now := now
    findOneFails := false
    findFails := false
    scrape := fun _ name _ =>
      if name = "amazon" then AdapterResult.returns [rawA]
      else if name = "flipkart" then AdapterResult.returns [rawB]
      else AdapterResult.returns []
    deleteFails := fun _ => false
    insertFails := fun _ => false
    stamp := fun _ _ => now }

/-- A world in which the database answers, the Amazon adapter returns `rawA`
and the Flipkart adapter rejects. -/
def flipkartThrows (now : ℤ) : World :=
  { now := now
    findOneFails := false
    findFails := false
    scrape := fun _ name _ =>
      if name = "amazon" then AdapterResult.returns [rawA] else AdapterResult.throws
    deleteFails := fun _ => false
    insertFails := fun _ => false
    stamp := fun _ _ => now }

/-- The request `GET /api/search?q=phone&platforms=amazon,flipkart`. -/
def phoneRequest : Request := { q := some "phone", platforms := some "amazon,flipkart" }

/-- The projection of `rawA` assembled in the first slot. -/
def projectedA : Projected :=
  { id := 1, platform := "Amazon", name := "Phone A", price := JSNumber.fin 100,
    image := none, link := some "a" }

/-- The projection of `rawB` assembled in the second slot. -/
def projectedB : Projected :=
  { id := 2, platform := "Flipkart", name := "Phone B", price := JSNumber.fin 200,
    image := none, link := some "b" }

/-- The document of `rawA` assembled in the first slot for `phoneRequest`. -/
def docA (searchedAt : ℤ) : ProductDoc :=
  { id := 1, platform := "Amazon", name := "Phone A", price := JSNumber.fin 100,
    image := none, link := some "a", searchQuery := "phone",
    searchPlatforms := "amazon,flipkart", searchedAt := searchedAt }

/-- The document of `rawB` assembled in the second slot for `phoneRequest`. -/
def docB (searchedAt : ℤ) : ProductDoc :=
  { id := 2, platform := "Flipkart", name := "Phone B", price := JSNumber.fin 200,
    image := none, link := some "b", searchQuery := "phone",
    searchPlatforms := "amazon,flipkart", searchedAt := searchedAt }

/-! ## Comma-separated items -/

/-- The method `Array.prototype.join` with a one-character separator: the
items written one after the other with the separator between them. -/
def joinWith (sep : Char) : List (List Char) → List Char
  | [] => []
  | [x] => x
  | x :: y :: rest => x ++ sep :: joinWith sep (y :: rest)

/-! ## The answer of the handler, branch by branch -/

/-- What a scraping block pushes to `allProducts`, or `none` when an
exception leaves the block: the first component of `scrapeSlot`, which does
not depend on the collection. -/
def slotSaved (w : World) (slot : ℕ) (platform : Option String)
    (query platformsString : String) : Option (List SavedProduct) :=
  match scraperMap platform with
  | MapEntry.undefined => some []
  | MapEntry.inherited => none
  | MapEntry.scraper name =>
    match w.scrape slot name query with
    | AdapterResult.throws => none
    | AdapterResult.returns products => some (productsToSave products query platformsString slot 2)

/-- The answer of the handler to a request whose lowercased `q` is `query` and
whose `platforms` is `platformsString`, both non-empty. -/
def searchResponse (w : World) (query platformsString : String) (store : List ProductDoc) :
    Response :=
  if w.findOneFails then Response.serverError
  else
    match recentResult store query platformsString w.now with
    | some _ =>
      if w.findFails then Response.serverError
      else Response.ok ((cachedProducts store query platformsString).map projectDoc)
    | none =>
      match slotSaved w 1 (resolvePlatforms platformsString)[0]? query platformsString,
        slotSaved w 2 (resolvePlatforms platformsString)[1]? query platformsString with
      | some savedP1, some savedP2 =>
        Response.ok ((sortById SavedProduct.id (savedP1 ++ savedP2)).map projectSaved)
      | _, _ => Response.serverError

/-- A world in which the adapters answer as in `bothReturn` but the database
cannot be reached for any write. -/
def writesFail (now : ℤ) : World :=
  { bothReturn now with deleteFails := fun _ => true, insertFails := fun _ => true }

/-- A world in which the adapters answer as in `bothReturn` but the read of
the freshness lookup fails. -/
def lookupFails (now : ℤ) : World :=
  { bothReturn now with findOneFails := true }

/-! ## The scope of a key -/

/-- The record a document holds, its `searchedAt` stamp left out. -/
def docRecord (d : ProductDoc) : SavedProduct :=
  { platform := d.platform, name := d.name, price := d.price, image := d.image,
    link := d.link, searchQuery := d.searchQuery, searchPlatforms := d.searchPlatforms,
    id := d.id }

/-- The scope of a key: the persisted documents with that `searchQuery` and
`searchPlatforms`, in collection order. -/
def scopeOf (store : List ProductDoc) (query platformsString : String) : List ProductDoc :=
  store.filter (matchesKey query platformsString)

/-- The documents that `saveProducts` hands to `insertMany` in the given slot:
one per record of `productsToSave`, stamped with the clock. -/
def stampedDocs (w : World) (slot : ℕ) (toSave : List SavedProduct) : List ProductDoc :=
  mapIndexFrom (fun p i => toDoc p (w.stamp slot i)) toSave 0

/-- A document of another search, `laptop`, that holds the id 1. -/
def docLaptop : ProductDoc :=
  { id := 1, platform := "Amazon", name := "Laptop L", price := JSNumber.fin 900,
    image := none, link := some "l", searchQuery := "laptop",
    searchPlatforms := "amazon,flipkart", searchedAt := 0 }

/-! ## The handler of `/api/products/home` (lines 171-226) -/

namespace JSNumber

/-- The difference `x - y` of JavaScript: the exact difference rounded to
binary64, with the rules of the infinities and of `NaN`. -/
def sub (x y : JSNumber) : JSNumber :=
  match x with
  | nan => nan
  | posInf =>
    match y with
    | nan => nan
    | posInf => nan
    | _ => posInf
  | negInf =>
    match y with
    | nan => nan
    | negInf => nan
    | _ => negInf
  | fin a =>
    match y with
    | nan => nan
    | posInf => negInf
    | negInf => posInf
    | fin b => JSNumber.ofRat (a - b)

/-- The test `x <= y` of JavaScript: false when either side is `NaN`. -/
def le (x y : JSNumber) : Bool :=
  match x with
  | nan => false
  | negInf =>
    match y with
    | nan => false
    | _ => true
  | posInf =>
    match y with
    | posInf => true
    | _ => false
  | fin a =>
    match y with
    | nan => false
    | posInf => true
    | negInf => false
    | fin b => decide (a ≤ b)

end JSNumber

/-- A product of a home-feed section: the raw listing with its price replaced
by the parsed number. -/
structure HomeProduct where
  platform : String
  name : String
  price : JSNumber
  image : Option String
  link : Option String
  deriving DecidableEq

/-- A section of the home feed, `{ category, platform, products }`. -/
structure HomeSection where
  category : String
  platform : String
  products : List HomeProduct
  deriving DecidableEq

/-- The answer of the home-feed handler. -/
inductive HomeResponse where
  | ok (sections : List HomeSection) : HomeResponse
  | serverError : HomeResponse
  deriving DecidableEq

/-- What a home-feed request meets: the value of `Math.random()`, a number at
least 0 and below 1, and the outcome of calling the named scraper with a
category. -/
structure HomeWorld where
  random : ℚ
  random_nonneg : 0 ≤ random
  random_lt_one : random < 1
  scrape : String → String → AdapterResult

/-- Whether the adapter call rejected. -/
def AdapterResult.isThrows : AdapterResult → Bool
  | AdapterResult.throws => true
  | AdapterResult.returns _ => false

/-- The platform pool of line 173. -/
def homePlatforms : List String := ["amazon", "flipkart"]

/-- The category list of line 174. -/
def homeCategories : List String :=
  ["smartphones", "laptops", "headphones", "tshirts", "bags", "shoes"]

/-- The callback of `.map` in lines 205-208: the price becomes
`parseFloat(p.price.toString().replace(/[$,₹]/g, '').trim())`. -/
def toHomeProduct (p : RawProduct) : HomeProduct :=
  { platform := p.platform, name := p.name, price := parseFloat (cleanPriceText p.price),
    image := p.image, link := p.link }

/-- The comparator `(a, b) => a.price - b.price` as the sort reads it: `a` may
stay before `b` unless the difference is greater than 0 (a `NaN` difference is
read as 0). -/
def priceNotAfter (a b : HomeProduct) : Bool := !(a.price.sub b.price).gtZero

/-- The call `.sort((a, b) => a.price - b.price)`: a stable sort. When some
difference is `NaN` the comparator is not consistent and the language leaves
the order to the implementation; the order taken here is that of a stable
insertion, which an engine need not follow on such a list. On prices that
are all numbers the order is the one every engine gives. -/
def sortByPrice (xs : List HomeProduct) : List HomeProduct :=
  xs.insertionSort (fun a b => priceNotAfter a b = true)

/-- The list `top5` of lines 203-210. -/
def topFive (categoryProducts : List RawProduct) : List HomeProduct :=
  (sortByPrice
    ((categoryProducts.filter (fun p => truthyStr p.price && truthyStr p.name)).map
      toHomeProduct)).take 5

/-- The loop of lines 190-217 over the remaining categories, `homeProducts`
being the sections pushed so far: a rejected adapter call skips its category. -/
def homeLoop (w : HomeWorld) (randomPlatformName : String) :
    List String → List HomeSection → List HomeSection
  | [], homeProducts => homeProducts
  | category :: rest, homeProducts =>
    match w.scrape randomPlatformName category with
    | AdapterResult.throws => homeLoop w randomPlatformName rest homeProducts
    | AdapterResult.returns categoryProducts =>
      homeLoop w randomPlatformName rest
        (homeProducts ++ [HomeSection.mk category randomPlatformName (topFive categoryProducts)])

/-- The index `Math.floor(Math.random() * platforms.length)` of line 179. -/
def randomPlatformIndex (w : HomeWorld) : ℕ :=
  (Rat.floor (w.random * (homePlatforms.length : ℚ))).toNat

/-- The handler of `GET /api/products/home`. The scraper map is asked with a
key of the pool, so the lookup yields a scraper; the other outcomes of the
lookup are answered 500. -/
def apiProductsHome (w : HomeWorld) : HomeResponse :=
  match scraperMap homePlatforms[randomPlatformIndex w]? with
  | MapEntry.scraper name => HomeResponse.ok (homeLoop w name homeCategories [])
  | MapEntry.inherited => HomeResponse.serverError
  | MapEntry.undefined => HomeResponse.serverError

/-- The ascending order of price: each product's price is `<=` the price of
every later one. -/
def priceAscending (products : List HomeProduct) : Prop :=
  products.Pairwise (fun a b => a.price.le b.price = true)

/-- A raw listing whose price text is not a number. -/
def rawUnpriced : RawProduct :=
  { platform := "Amazon", name := "Laptop X", price := "abc", image := none, link := some "x" }

/-- A raw listing with the given name and price text. -/
def rawPriced (name price : String) : RawProduct :=
  { platform := "Amazon", name := name, price := price, image := none, link := some "y" }

/-- A home-feed world: `Math.random()` gives 1/4, so the platform is `amazon`;
the adapter rejects for `laptops` and returns the given listings for every
other category. -/
def laptopsThrow (listings : List RawProduct) : HomeWorld :=
  { random := 1 / 4
    random_nonneg := by norm_num
    random_lt_one := by norm_num
    scrape := fun _ category =>
      if category = "laptops" then AdapterResult.throws else AdapterResult.returns listings }

/-- The scraping block an effect belongs to: `1` or `2` for an adapter call
or a write of that block, nothing for the reads of the cache check. -/
def Event.slot : Event → Option ℕ
  | Event.findOne => none
  | Event.find => none
  | Event.scrape slot _ => some slot
  | Event.deleteMany slot => some slot
  | Event.insertMany slot _ => some slot

/-! ## The call of `saveProducts` with its `platform` argument -/

/-- The call `saveProducts(products, platform, query, platformsString, startId,
step)` with its six arguments. The body reads `platform` in its three log
messages only, so the outcome is that of `saveProducts`. -/
def saveProductsCall (w : World) (slot : ℕ) (store : List ProductDoc)
    (products : List RawProduct) (_platform query platformsString : String)
    (startId step : ℕ) : SaveOutcome :=
  saveProducts w slot store products query platformsString startId step

/-- A world that answers as `bothReturn` does, with a clock that advances by
one millisecond from one document of a batch to the next. -/
def tickingClock (now : ℤ) : World :=
  { bothReturn now with stamp := fun _ i => now + i }

/-! ## The handler of `/api/user/history` (lines 230-245) -/

/-- An output document of the `$group` stage: a `searchQuery` and the maximum
`searchedAt` of its documents. -/
structure QueryGroup where
  query : String
  latest : ℤ
  deriving DecidableEq

/-- The accumulator `{ $max: "$searchedAt" }` over the documents of one
query. -/
def latestOf (store : List ProductDoc) (query : String) : ℤ :=
  match (store.filter (fun d => d.searchQuery = query)).map ProductDoc.searchedAt with
  | [] => 0
  | t :: ts => ts.foldl max t

/-- The stage `{ $group: { _id: "$searchQuery", latest: { $max: "$searchedAt" } } }`:
one group for each `searchQuery` of the collection. The database does not fix
the order of the groups; here it is that of the last appearance. -/
def groupStage (store : List ProductDoc) : List QueryGroup :=
  ((store.map ProductDoc.searchQuery).dedup).map (fun q => QueryGroup.mk q (latestOf store q))

/-- The stage `{ $sort: { latest: -1 } }`: by `latest` descending. The database
does not fix the order of groups with equal `latest`; here the sort is
stable. -/
def sortStage (groups : List QueryGroup) : List QueryGroup :=
  groups.insertionSort (fun a b => b.latest ≤ a.latest)

/-- The stages `{ $limit: 4 }` and `{ $project: { _id: 0, query: "$_id" } }`,
followed by `history.map(item => item.query)`. -/
def limitAndProject (groups : List QueryGroup) : List String :=
  (groups.take 4).map QueryGroup.query

/-- The answer of the history handler. -/
inductive HistoryResponse where
  | ok (queries : List String) : HistoryResponse
  | serverError : HistoryResponse
  deriving DecidableEq

/-- The handler of `GET /api/user/history`; `aggregateFails` tells whether
`Product.aggregate` rejects. -/
def apiUserHistory (aggregateFails : Bool) (store : List ProductDoc) : HistoryResponse :=
  if aggregateFails then HistoryResponse.serverError
  else HistoryResponse.ok (limitAndProject (sortStage (groupStage store)))

/-- A history of recent queries: at most 4 queries, pairwise distinct,
each the `searchQuery` of a persisted document, each one's latest document at
least as recent as every document of a later one, and every persisted query
that is left out no more recent than any query of the list. -/
def RecentQueries (store : List ProductDoc) (queries : List String) : Prop :=
  queries.length ≤ 4 ∧ queries.Nodup ∧
  (∀ q ∈ queries, ∃ d ∈ store, d.searchQuery = q) ∧
  queries.Pairwise (fun q1 q2 => ∃ d1 ∈ store, d1.searchQuery = q1 ∧
    ∀ d2 ∈ store, d2.searchQuery = q2 → d2.searchedAt ≤ d1.searchedAt) ∧
  (∀ d ∈ store, d.searchQuery ∉ queries → ∀ r ∈ queries, ∃ dr ∈ store, dr.searchQuery = r ∧
    ∀ e ∈ store, e.searchQuery = d.searchQuery → e.searchedAt ≤ dr.searchedAt)

/-- A document of the search `query`, stamped `searchedAt`, with the given
id. -/
def docOf (id : ℕ) (query : String) (searchedAt : ℤ) : ProductDoc :=
  { id := id, platform := "Amazon", name := "N", price := JSNumber.fin 1, image := none,
    link := none, searchQuery := query, searchPlatforms := "amazon,flipkart",
    searchedAt := searchedAt }

/-- A collection with five searches: `a` last seen at 50, `b` at 20, `c` at
40, `d` at 10 and `e` at 30. -/
def fiveSearches : List ProductDoc :=
  [docOf 1 "a" 5, docOf 2 "b" 20, docOf 3 "c" 40, docOf 4 "a" 50, docOf 5 "d" 10,
    docOf 6 "e" 30, docOf 7 "c" 35]

/-! ## Query strings with repeated or bracketed parameters -/

/-- A parameter of `req.query` as Express parses it: absent (`undefined`), a
string, an array of strings (a repeated parameter, `?q=a&q=b`) or an object
(a bracketed parameter, `?q[k]=a`). -/
inductive QueryParam where
  | absent : QueryParam
  | text (value : String) : QueryParam
  | array (values : List String) : QueryParam
  | object : QueryParam
  deriving DecidableEq

/-- The parameter that is absent or a string. -/
def QueryParam.ofOption : Option String → QueryParam
  | none => QueryParam.absent
  | some s => QueryParam.text s

/-- The query string of any request to `/api/search`, as Express parses it. -/
structure ExpressRequest where
  q : QueryParam
  platforms : QueryParam

/-- The handler of `/api/search` on any query string. The result `none` is a
`TypeError` that leaves the handler outside its `try` (lines 103-166): the
handler sends no answer, neither the 400 of its guard nor the 500 of its
`catch`, and what the client gets is left to the error handling of Express.

* Line 88, `req.query.q?.toLowerCase()`: an absent `q` gives `undefined`; an
  array or an object has no method `toLowerCase`, so the call throws, before
  the guard is reached.
* Line 91, `!query || !platformsString`: an array or an object is truthy.
* Line 95, `platformsString.split(',')`: an array or an object has no method
  `split`, so the call throws.
-/
def apiSearchExpress (w : World) (req : ExpressRequest) (store : List ProductDoc) :
    Option Outcome :=
  match req.q with
  | QueryParam.array _ => none
  | QueryParam.object => none
  | QueryParam.absent => some { response := Response.badRequest, store := store, trace := [] }
  | QueryParam.text q =>
    match req.platforms with
    | QueryParam.absent => some (apiSearch w { q := some q, platforms := none } store)
    | QueryParam.text ps => some (apiSearch w { q := some q, platforms := some ps } store)
    | _ =>
      if !truthyStr (toLowerCase q) then
        some { response := Response.badRequest, store := store, trace := [] }
      else none

/-- A world in which the database answers, the Amazon adapter returns `rawA`,
a listing without a name and `rawA` again, and the Flipkart adapter returns
`rawB` three times; the clock reads `now` throughout. -/
def namelessInTheMiddle (now : ℤ) : World :=
  { now := now
    findOneFails := false
    findFails := false
    scrape := fun _ name _ =>
      if name = "amazon" then AdapterResult.returns [rawA, rawNameless, rawA]
      else if name = "flipkart" then AdapterResult.returns [rawB, rawB, rawB]
      else AdapterResult.returns []
    deleteFails := fun _ => false
    insertFails := fun _ => false
    stamp := fun _ _ => now }

/-! ## Lemmas on the assembly -/

theorem mem_mapIndexFrom {α β : Type} (f : α → ℕ → β) (xs : List α) (i : ℕ) (b : β) :
    b ∈ mapIndexFrom f xs i ↔ ∃ k a, xs[k]? = some a ∧ b = f a (i + k) := by
  induction xs generalizing i with
  | nil => simp [mapIndexFrom]
  | cons x xs ih =>
    simp only [mapIndexFrom, List.mem_cons, ih]
    constructor
    · rintro (h | ⟨k, a, hk, hb⟩)
      · exact ⟨0, x, by simp, by simpa using h⟩
      · exact ⟨k + 1, a, by simpa using hk, by rw [hb]; congr 1; omega⟩
    · rintro ⟨k, a, hk, hb⟩
      cases k with
      | zero =>
        left
        simp at hk
        subst hk
        simpa using hb
      | succ k =>
        right
        exact ⟨k, a, by simpa using hk, by rw [hb]; congr 1; omega⟩

theorem length_mapIndexFrom {α β : Type} (f : α → ℕ → β) (xs : List α) (i : ℕ) :
    (mapIndexFrom f xs i).length = xs.length := by
  induction xs generalizing i with
  | nil => rfl
  | cons x xs ih => simp [mapIndexFrom, ih]

theorem saveProducts_saved (w : World) (slot : ℕ) (store : List ProductDoc)
    (products : List RawProduct) (query platformsString : String) (startId step : ℕ) :
    (saveProducts w slot store products query platformsString startId step).saved
      = productsToSave products query platformsString startId step := by
  unfold saveProducts
  simp only []
  split
  · rename_i h
    simp only [List.isEmpty_iff] at h
    simp [h]
  · split
    · rfl
    · split <;> rfl

theorem mem_productsToSave (products : List RawProduct) (query platformsString : String)
    (startId step : ℕ) (r : SavedProduct) :
    r ∈ productsToSave products query platformsString startId step ↔
      ∃ i raw, products[i]? = some raw ∧
        r = assembleOne query platformsString startId step raw i ∧ keepSaved r = true := by
  unfold productsToSave
  rw [List.mem_filter, mem_mapIndexFrom]
  constructor
  · rintro ⟨⟨k, a, hk, hr⟩, hkeep⟩
    exact ⟨k, a, hk, by simpa using hr, hkeep⟩
  · rintro ⟨k, a, hk, hr, hkeep⟩
    exact ⟨⟨k, a, hk, by simpa using hr⟩, hkeep⟩

theorem truthyStr_iff (s : String) : truthyStr s = true ↔ s ≠ "" := by
  unfold truthyStr
  constructor
  · intro h hs
    subst hs
    simp at h
  · intro h
    cases s with
    | mk data =>
      cases data with
      | nil => exact absurd rfl h
      | cons c cs => rfl

theorem cleanPrice_ten : cleanPrice "$10" = JSNumber.fin 10 := by decide!

/-! ## Properties of the assembly and of the search -/

/-- C5: every record returned by `saveProducts` has a non-empty name and a
price greater than 0, every raw record with a non-empty name and a positive
normalised price is kept, and of the two raw records `X` at `$10` and the
nameless one at `$5` exactly one is returned. -/
theorem saveProducts_keeps_exactly_the_valid (w : World) (slot : ℕ) (store : List ProductDoc)
    (products : List RawProduct) (query platformsString : String) (startId step : ℕ) :
    (∀ r ∈ (saveProducts w slot store products query platformsString startId step).saved,
        r.name ≠ "" ∧ r.price.gtZero = true) ∧
    (∀ i raw, products[i]? = some raw → raw.name ≠ "" →
        (cleanPrice raw.price).gtZero = true →
        assembleOne query platformsString startId step raw i ∈
          (saveProducts w slot store products query platformsString startId step).saved) ∧
    (∀ platform image link,
      (saveProducts w slot store
        [⟨platform, "X", "$10", image, link⟩, ⟨platform, "", "$5", image, link⟩]
        query platformsString startId step).saved.length = 1) := by
  refine ⟨?_, ?_, ?_⟩
  · intro r hr
    rw [saveProducts_saved, mem_productsToSave] at hr
    obtain ⟨i, raw, _, _, hkeep⟩ := hr
    unfold keepSaved at hkeep
    rw [Bool.and_eq_true] at hkeep
    exact ⟨(truthyStr_iff _).1 hkeep.2, hkeep.1⟩
  · intro i raw hi hname hprice
    rw [saveProducts_saved, mem_productsToSave]
    refine ⟨i, raw, hi, rfl, ?_⟩
    unfold keepSaved
    rw [Bool.and_eq_true]
    exact ⟨hprice, (truthyStr_iff _).2 hname⟩
  · intro platform image link
    rw [saveProducts_saved]
    simp [productsToSave, mapIndexFrom, keepSaved, assembleOne, cleanPrice_ten,
      JSNumber.gtZero, truthyStr]

/-- C5 at the single raw record `A`: it has a name and a positive normalised
price, and its assembly is returned. -/
theorem saveProducts_keeps_exactly_the_valid_witness :
    [rawA][0]? = some rawA ∧ rawA.name ≠ "" ∧ (cleanPrice rawA.price).gtZero = true ∧
    assembleOne "phone" "amazon,flipkart" 1 2 rawA 0 ∈
      (saveProducts (bothReturn 1000000) 1 [] [rawA] "phone" "amazon,flipkart" 1 2).saved :=
  ⟨rfl, by decide, by decide!,
    (saveProducts_keeps_exactly_the_valid (bothReturn 1000000) 1 [] [rawA]
      "phone" "amazon,flipkart" 1 2).2.1 0 rawA rfl (by decide) (by decide!)⟩

/-- C6: a record returned by `saveProducts` is the assembly of the raw record
at some position `i` of the input, counted with the dropped records, and its
id is `startId + i * step`; conversely the raw record at position `i`, when it
is kept, is returned with the id `startId + i * step`. -/
theorem saveProducts_id_of_position (w : World) (slot : ℕ) (store : List ProductDoc)
    (products : List RawProduct) (query platformsString : String) (startId step : ℕ) :
    (∀ r ∈ (saveProducts w slot store products query platformsString startId step).saved,
        ∃ i raw, products[i]? = some raw ∧
          r = assembleOne query platformsString startId step raw i ∧
          r.id = startId + i * step) ∧
    (∀ i raw, products[i]? = some raw →
        keepSaved (assembleOne query platformsString startId step raw i) = true →
        ∃ r ∈ (saveProducts w slot store products query platformsString startId step).saved,
          r.platform = raw.platform ∧ r.name = raw.name ∧ r.image = raw.image ∧
          r.link = raw.link ∧ r.price = cleanPrice raw.price ∧ r.id = startId + i * step) := by
  constructor
  · intro r hr
    rw [saveProducts_saved, mem_productsToSave] at hr
    obtain ⟨i, raw, hi, hreq, _⟩ := hr
    exact ⟨i, raw, hi, hreq, by rw [hreq]; rfl⟩
  · intro i raw hi hkeep
    refine ⟨assembleOne query platformsString startId step raw i, ?_, rfl, rfl, rfl, rfl, rfl, rfl⟩
    rw [saveProducts_saved, mem_productsToSave]
    exact ⟨i, raw, hi, rfl, hkeep⟩

/-- C6 at the batch `[nameless, A]` with `startId = 1` and `step = 2`: the
record `A`, at position 1, is returned with the id `1 + 1 * 2`. -/
theorem saveProducts_id_of_position_witness :
    [rawNameless, rawA][1]? = some rawA ∧
    keepSaved (assembleOne "phone" "amazon,flipkart" 1 2 rawA 1) = true ∧
    ∃ r ∈ (saveProducts (bothReturn 1000000) 1 [] [rawNameless, rawA]
        "phone" "amazon,flipkart" 1 2).saved,
      r.platform = rawA.platform ∧ r.name = rawA.name ∧ r.image = rawA.image ∧
      r.link = rawA.link ∧ r.price = cleanPrice rawA.price ∧ r.id = 1 + 1 * 2 :=
  ⟨rfl, by decide!,
    (saveProducts_id_of_position (bothReturn 1000000) 1 [] [rawNameless, rawA]
      "phone" "amazon,flipkart" 1 2).2 1 rawA rfl (by decide!)⟩

theorem toLowerCase_eq_empty (s : String) : toLowerCase s = "" ↔ s = "" := by
  cases s with
  | mk data =>
    cases data with
    | nil => simp [toLowerCase]
    | cons c cs =>
      constructor
      · intro h
        have h2 := congrArg String.data h
        simp [toLowerCase] at h2
      · intro h
        have h2 := congrArg String.data h
        simp at h2

theorem truthyStr_eq_false_iff (s : String) : truthyStr s = false ↔ s = "" := by
  rw [← Bool.not_eq_true, truthyStr_iff]
  exact not_not

/-- On a query string whose parameters are each absent or a single string,
`/api/search` answers 400 exactly when the `q` parameter or the `platforms`
parameter is absent or empty, and then it makes no database call and no
adapter call and leaves the collection as it was. -/
theorem apiSearch_badRequest_iff (w : World) (req : Request) (store : List ProductDoc) :
    ((apiSearch w req store).response = Response.badRequest ↔
      (req.q = none ∨ req.q = some "" ∨ req.platforms = none ∨ req.platforms = some "")) ∧
    ((apiSearch w req store).response = Response.badRequest →
      (apiSearch w req store).trace = [] ∧ (apiSearch w req store).store = store) := by
  obtain ⟨q, platforms⟩ := req
  cases q with
  | none => simp [apiSearch]
  | some q =>
    cases platforms with
    | none => simp [apiSearch]
    | some ps =>
      by_cases hq : q = ""
      · subst hq
        simp [apiSearch, toLowerCase, truthyStr]
      · by_cases hp : ps = ""
        · subst hp
          simp [apiSearch, truthyStr]
        · have hq2 : truthyStr (toLowerCase q) = true := by
            rw [truthyStr_iff]
            intro h
            exact hq ((toLowerCase_eq_empty q).1 h)
          have hp2 : truthyStr ps = true := (truthyStr_iff ps).2 hp
          have hne : (apiSearch w ⟨some q, some ps⟩ store).response ≠ Response.badRequest := by
            simp only [apiSearch, Option.map_some', hq2, hp2, Bool.not_true, Bool.or_self,
              Bool.false_eq_true, if_false]
            split
            · simp
            · split
              · split <;> simp
              · split
                · simp
                · split <;> simp
          constructor
          · constructor
            · intro h
              exact absurd h hne
            · rintro (h | h | h | h)
              · simp at h
              · simp at h
                exact absurd h hq
              · simp at h
              · simp at h
                exact absurd h hp
          · intro h
            exact absurd h hne

/-- At the request `?q=phone` without `platforms`: the answer is 400, nothing
is called and the collection is unchanged. -/
theorem apiSearch_badRequest_iff_witness :
    (apiSearch (bothReturn 1000000) ⟨some "phone", none⟩ [docA 0]).response
      = Response.badRequest ∧
    (apiSearch (bothReturn 1000000) ⟨some "phone", none⟩ [docA 0]).trace = [] ∧
    (apiSearch (bothReturn 1000000) ⟨some "phone", none⟩ [docA 0]).store = [docA 0] :=
  ⟨(apiSearch_badRequest_iff (bothReturn 1000000) ⟨some "phone", none⟩ [docA 0]).1.2
      (Or.inr (Or.inr (Or.inl rfl))),
    (apiSearch_badRequest_iff (bothReturn 1000000) ⟨some "phone", none⟩ [docA 0]).2
      ((apiSearch_badRequest_iff (bothReturn 1000000) ⟨some "phone", none⟩ [docA 0]).1.2
        (Or.inr (Or.inr (Or.inl rfl))))⟩

theorem head?_isSome_iff {α : Type} (l : List α) : l.head?.isSome = true ↔ l ≠ [] := by
  cases l <;> simp

theorem insertionSort_eq_nil_iff {α : Type} (r : α → α → Prop) [DecidableRel r] (l : List α) :
    l.insertionSort r = [] ↔ l = [] := by
  constructor
  · intro h
    have hlen := List.length_insertionSort r l
    rw [h] at hlen
    exact List.length_eq_zero.1 hlen.symm
  · intro h
    subst h
    rfl

/-- C3: the freshness lookup of `/api/search` finds a document exactly when
some persisted document with that very `searchQuery` and `searchPlatforms` has
`searchedAt >= now - 5 minutes`; a document of the key stamped four minutes
ago gives a hit, and a scope whose documents are all stamped six minutes ago
gives a miss. -/
theorem recentResult_isSome_iff (store : List ProductDoc) (query platformsString : String)
    (now : ℤ) :
    ((recentResult store query platformsString now).isSome = true ↔
      ∃ d ∈ store, d.searchQuery = query ∧ d.searchPlatforms = platformsString ∧
        now - 5 * 60 * 1000 ≤ d.searchedAt) ∧
    ((∃ d ∈ store, d.searchQuery = query ∧ d.searchPlatforms = platformsString ∧
        d.searchedAt = now - 4 * 60 * 1000) →
      (recentResult store query platformsString now).isSome = true) ∧
    ((∀ d ∈ store, d.searchQuery = query → d.searchPlatforms = platformsString →
        d.searchedAt = now - 6 * 60 * 1000) →
      recentResult store query platformsString now = none) := by
  have key : (recentResult store query platformsString now).isSome = true ↔
      ∃ d ∈ store, d.searchQuery = query ∧ d.searchPlatforms = platformsString ∧
        now - 5 * 60 * 1000 ≤ d.searchedAt := by
    unfold recentResult
    rw [head?_isSome_iff, ne_eq, insertionSort_eq_nil_iff, ← ne_eq]
    constructor
    · intro h
      obtain ⟨d, l, h⟩ := List.exists_cons_of_ne_nil h
      have hd : d ∈ store.filter (fun d => matchesKey query platformsString d &&
          decide (now - cacheDurationMs ≤ d.searchedAt)) := by
        rw [h]
        exact List.mem_cons_self _ _
      rw [List.mem_filter] at hd
      obtain ⟨hmem, hcond⟩ := hd
      simp only [matchesKey, cacheDurationMs, Bool.and_eq_true, decide_eq_true_eq] at hcond
      exact ⟨d, hmem, hcond.1.1, hcond.1.2, hcond.2⟩
    · rintro ⟨d, hmem, hq, hp, ht⟩
      have hd : d ∈ store.filter (fun d => matchesKey query platformsString d &&
          decide (now - cacheDurationMs ≤ d.searchedAt)) := by
        rw [List.mem_filter]
        refine ⟨hmem, ?_⟩
        simp only [matchesKey, cacheDurationMs, Bool.and_eq_true, decide_eq_true_eq]
        exact ⟨⟨hq, hp⟩, ht⟩
      exact List.ne_nil_of_mem hd
  refine ⟨key, ?_, ?_⟩
  · rintro ⟨d, hmem, hq, hp, ht⟩
    exact key.2 ⟨d, hmem, hq, hp, by rw [ht]; omega⟩
  · intro h
    rw [← Option.not_isSome_iff_eq_none, key]
    rintro ⟨d, hmem, hq, hp, ht⟩
    have := h d hmem hq hp
    omega

/-- C3 at the time 1000000 ms: a document of the key stamped four minutes
earlier is found, and one stamped six minutes earlier is not. -/
theorem recentResult_isSome_iff_witness :
    (recentResult [docA (1000000 - 4 * 60 * 1000)] "phone" "amazon,flipkart" 1000000).isSome
      = true ∧
    recentResult [docA (1000000 - 6 * 60 * 1000)] "phone" "amazon,flipkart" 1000000 = none :=
  ⟨(recentResult_isSome_iff [docA (1000000 - 4 * 60 * 1000)] "phone" "amazon,flipkart"
      1000000).2.1 ⟨docA (1000000 - 4 * 60 * 1000), List.mem_singleton.2 rfl, rfl, rfl, rfl⟩,
    (recentResult_isSome_iff [docA (1000000 - 6 * 60 * 1000)] "phone" "amazon,flipkart"
      1000000).2.2 (fun d hd _ _ => by rw [List.mem_singleton.1 hd]; rfl)⟩

/-- C2: on an empty collection the search for `phone` on `amazon,flipkart`
answers with both platforms' records, yet the collection afterwards holds the
second platform's record only (the second `saveProducts` deletes what the
first inserted), and the same search one second later is served from the
cache with that single record. -/
theorem cold_search_persists_second_platform_only :
    (apiSearch (bothReturn 1000000) phoneRequest []).response
      = Response.ok [projectedA, projectedB] ∧
    (apiSearch (bothReturn 1000000) phoneRequest []).store = [docB 1000000] ∧
    (apiSearch (bothReturn 1001000) phoneRequest
        (apiSearch (bothReturn 1000000) phoneRequest []).store).response
      = Response.ok [projectedB] := by
  decide!

/-- C4: on an empty collection, when the Amazon adapter returns a record and
the Flipkart adapter rejects, `/api/search` answers 500 and returns no list,
although the Amazon record has been persisted. -/
theorem adapter_rejection_fails_the_search :
    (apiSearch (flipkartThrows 1000000) phoneRequest []).response = Response.serverError ∧
    (apiSearch (flipkartThrows 1000000) phoneRequest []).store = [docA 1000000] := by
  decide!

/-! ## Interleaving lemmas -/

theorem productsToSave_of_valid (products : List RawProduct) (query platformsString : String)
    (startId step : ℕ) (h : ∀ raw ∈ products, validRaw raw = true) :
    productsToSave products query platformsString startId step
      = mapIndexFrom (assembleOne query platformsString startId step) products 0 := by
  unfold productsToSave
  rw [List.filter_eq_self]
  intro r hr
  rw [mem_mapIndexFrom] at hr
  obtain ⟨k, raw, hk, hreq⟩ := hr
  have hv := h raw (List.getElem?_mem hk)
  rw [hreq]
  exact hv

theorem idsFrom_mapIndexFrom (products : List RawProduct) (query platformsString : String)
    (startId i : ℕ) :
    IdsFrom (mapIndexFrom (assembleOne query platformsString startId 2) products i)
      (startId + i * 2) := by
  induction products generalizing i with
  | nil => trivial
  | cons x xs ih =>
    refine ⟨rfl, ?_⟩
    have := ih (i + 1)
    have he : startId + (i + 1) * 2 = startId + i * 2 + 2 := by ring
    rw [he] at this
    exact this

theorem idsFrom_sorted (xs : List SavedProduct) (s : ℕ) (h : IdsFrom xs s) :
    xs.Pairwise (fun a b => a.id < b.id) ∧ ∀ b ∈ xs, s ≤ b.id := by
  induction xs generalizing s with
  | nil => exact ⟨List.Pairwise.nil, by simp⟩
  | cons x xs ih =>
    obtain ⟨hx, hrest⟩ := h
    obtain ⟨hp, hb⟩ := ih (s + 2) hrest
    refine ⟨List.Pairwise.cons ?_ hp, ?_⟩
    · intro b hbm
      have := hb b hbm
      omega
    · intro b hbm
      rcases List.mem_cons.1 hbm with h1 | h1
      · rw [h1, hx]
      · have := hb b h1
        omega

theorem interleave_sorted (xs ys : List SavedProduct) (s : ℕ) (hx : IdsFrom xs s)
    (hy : IdsFrom ys (s + 1)) :
    (interleave xs ys).Pairwise (fun a b => a.id < b.id) ∧ ∀ b ∈ interleave xs ys, s ≤ b.id := by
  induction xs generalizing ys s with
  | nil =>
    obtain ⟨hp, hb⟩ := idsFrom_sorted ys (s + 1) hy
    refine ⟨hp, ?_⟩
    intro b hbm
    have := hb b hbm
    omega
  | cons x xs ih =>
    cases ys with
    | nil => exact idsFrom_sorted (x :: xs) s hx
    | cons y ys =>
      obtain ⟨hxid, hxs⟩ := hx
      obtain ⟨hyid, hys⟩ := hy
      obtain ⟨hp, hb⟩ := ih ys (s + 2) hxs hys
      show (x :: y :: interleave xs ys).Pairwise _ ∧ ∀ b ∈ x :: y :: interleave xs ys, s ≤ b.id
      refine ⟨List.Pairwise.cons ?_ (List.Pairwise.cons ?_ hp), ?_⟩
      · intro b hbm
        rcases List.mem_cons.1 hbm with h1 | h1
        · rw [h1]
          omega
        · have := hb b h1
          omega
      · intro b hbm
        have := hb b hbm
        omega
      · intro b hbm
        rcases List.mem_cons.1 hbm with h1 | h1
        · rw [h1, hxid]
        · rcases List.mem_cons.1 h1 with h2 | h2
          · rw [h2]
            omega
          · have := hb b h2
            omega

theorem interleave_perm {α : Type} (xs ys : List α) : (interleave xs ys).Perm (xs ++ ys) := by
  induction xs generalizing ys with
  | nil => exact List.Perm.refl _
  | cons x xs ih =>
    cases ys with
    | nil => simp [interleave]
    | cons y ys =>
      show (x :: y :: interleave xs ys).Perm (x :: (xs ++ y :: ys))
      refine List.Perm.cons x ?_
      have h1 : (y :: interleave xs ys).Perm (y :: (xs ++ ys)) := List.Perm.cons y (ih ys)
      exact h1.trans List.perm_middle.symm

theorem interleave_getElem? {α : Type} (xs ys : List α) (i : ℕ) (hx : i < xs.length)
    (hy : i < ys.length) :
    (interleave xs ys)[2 * i]? = xs[i]? ∧ (interleave xs ys)[2 * i + 1]? = ys[i]? := by
  induction xs generalizing ys i with
  | nil => simp at hx
  | cons x xs ih =>
    cases ys with
    | nil => simp at hy
    | cons y ys =>
      cases i with
      | zero => simp [interleave]
      | succ i =>
        have hx2 : i < xs.length := by simpa using hx
        have hy2 : i < ys.length := by simpa using hy
        obtain ⟨h1, h2⟩ := ih ys i hx2 hy2
        have e1 : 2 * (i + 1) = 2 * i + 1 + 1 := by ring
        have e2 : 2 * (i + 1) + 1 = 2 * i + 1 + 1 + 1 := by ring
        constructor
        · rw [e1]
          simpa [interleave] using h1
        · rw [e2]
          simpa [interleave] using h2

theorem eq_of_id_eq_of_sorted (l : List SavedProduct)
    (h : l.Pairwise (fun a b => a.id < b.id)) (a b : SavedProduct) (ha : a ∈ l) (hb : b ∈ l)
    (hid : a.id = b.id) : a = b := by
  induction l with
  | nil => simp at ha
  | cons x xs ih =>
    rw [List.pairwise_cons] at h
    rcases List.mem_cons.1 ha with h1 | h1
    · rcases List.mem_cons.1 hb with h2 | h2
      · rw [h1, h2]
      · have := h.1 b h2
        rw [h1] at hid
        omega
    · rcases List.mem_cons.1 hb with h2 | h2
      · have := h.1 a h1
        rw [h2] at hid
        omega
      · exact ih h.2 h1 h2

theorem sortById_eq_interleave (xs ys : List SavedProduct) (s : ℕ) (hx : IdsFrom xs s)
    (hy : IdsFrom ys (s + 1)) :
    sortById SavedProduct.id (xs ++ ys) = interleave xs ys := by
  obtain ⟨hp, _⟩ := interleave_sorted xs ys s hx hy
  have hperm : (sortById SavedProduct.id (xs ++ ys)).Perm (interleave xs ys) :=
    (List.perm_insertionSort _ _).trans (interleave_perm xs ys).symm
  haveI : IsTotal SavedProduct (fun a b => a.id ≤ b.id) := ⟨fun a b => Nat.le_total a.id b.id⟩
  haveI : IsTrans SavedProduct (fun a b => a.id ≤ b.id) :=
    ⟨fun _ _ _ h1 h2 => Nat.le_trans h1 h2⟩
  have hs1 : (sortById SavedProduct.id (xs ++ ys)).Pairwise (fun a b => a.id ≤ b.id) :=
    List.sorted_insertionSort (fun a b : SavedProduct => a.id ≤ b.id) (xs ++ ys)
  have hs2 : (interleave xs ys).Pairwise (fun a b => a.id ≤ b.id) :=
    hp.imp (fun h => Nat.le_of_lt h)
  refine List.Perm.eq_of_sorted ?_ hs1 hs2 hperm
  intro a b ha hb hab hba
  exact eq_of_id_eq_of_sorted _ hp a b (hperm.subset ha) hb (Nat.le_antisymm hab hba)

/-- For two raw batches of sizes `m` and `n` in which every record passes the filter of `saveProducts` (non-empty name, positive
normalised price), assembled with `(startId = 1, step = 2)` and
`(startId = 2, step = 2)`, the union sorted by id ascending alternates
strictly between the first and the second batch over its first
`2 * min m n` elements. -/
theorem valid_batches_alternate (w1 w2 : World) (s1 s2 : ℕ) (store1 store2 : List ProductDoc)
    (raws1 raws2 : List RawProduct) (query platformsString : String)
    (h1 : ∀ raw ∈ raws1, validRaw raw = true) (h2 : ∀ raw ∈ raws2, validRaw raw = true) :
    Alternates
      (sortById SavedProduct.id
        ((saveProducts w1 s1 store1 raws1 query platformsString 1 2).saved ++
          (saveProducts w2 s2 store2 raws2 query platformsString 2 2).saved))
      (saveProducts w1 s1 store1 raws1 query platformsString 1 2).saved
      (saveProducts w2 s2 store2 raws2 query platformsString 2 2).saved
      (2 * min raws1.length raws2.length) := by
  rw [saveProducts_saved, saveProducts_saved, productsToSave_of_valid _ _ _ _ _ h1,
    productsToSave_of_valid _ _ _ _ _ h2]
  have hx := idsFrom_mapIndexFrom raws1 query platformsString 1 0
  have hy := idsFrom_mapIndexFrom raws2 query platformsString 2 0
  simp only [Nat.zero_mul, Nat.add_zero] at hx hy
  rw [sortById_eq_interleave _ _ 1 hx hy]
  intro j hj
  have hlen1 := length_mapIndexFrom (assembleOne query platformsString 1 2) raws1 0
  have hlen2 := length_mapIndexFrom (assembleOne query platformsString 2 2) raws2 0
  have hi1 : j / 2 < (mapIndexFrom (assembleOne query platformsString 1 2) raws1 0).length := by
    rw [hlen1]
    omega
  have hi2 : j / 2 < (mapIndexFrom (assembleOne query platformsString 2 2) raws2 0).length := by
    rw [hlen2]
    omega
  obtain ⟨e1, e2⟩ := interleave_getElem? _ _ (j / 2) hi1 hi2
  unfold fromBatchAt
  rcases Nat.mod_two_eq_zero_or_one j with hpar | hpar
  · have hj2 : 2 * (j / 2) = j := by omega
    rw [hj2] at e1
    rw [e1, List.getElem?_eq_getElem hi1]
    simp only [hpar, if_true, decide_eq_true_eq]
    exact List.getElem_mem _
  · have hj2 : 2 * (j / 2) + 1 = j := by omega
    rw [hj2] at e2
    rw [e2, List.getElem?_eq_getElem hi2]
    simp only [hpar, Nat.one_ne_zero, if_false, decide_eq_true_eq]
    exact List.getElem_mem _

/-- At the batches `[A, A]` and `[B]`: both are valid and the sorted union
alternates over its first two elements. -/
theorem valid_batches_alternate_witness :
    (∀ raw ∈ [rawA, rawA], validRaw raw = true) ∧ (∀ raw ∈ [rawB], validRaw raw = true) ∧
    Alternates
      (sortById SavedProduct.id
        ((saveProducts (bothReturn 1000000) 1 [] [rawA, rawA]
            "phone" "amazon,flipkart" 1 2).saved ++
          (saveProducts (bothReturn 1000000) 2 [] [rawB]
            "phone" "amazon,flipkart" 2 2).saved))
      (saveProducts (bothReturn 1000000) 1 [] [rawA, rawA]
        "phone" "amazon,flipkart" 1 2).saved
      (saveProducts (bothReturn 1000000) 2 [] [rawB]
        "phone" "amazon,flipkart" 2 2).saved
      (2 * min [rawA, rawA].length [rawB].length) :=
  ⟨by decide!, by decide!,
    valid_batches_alternate (bothReturn 1000000) (bothReturn 1000000) 1 2 [] []
      [rawA, rawA] [rawB] "phone" "amazon,flipkart" (by decide!) (by decide!)⟩

/-! ## Lemmas on the price normalisation -/

theorem stripPriceSymbols_eq_filter (l : List Char) :
    stripPriceSymbols l = l.filter (fun c => !isPriceSymbol c) := by
  induction l with
  | nil => rfl
  | cons c cs ih =>
    by_cases h : isPriceSymbol c = true
    · simp [stripPriceSymbols, h, ih]
    · simp [stripPriceSymbols, h, ih]

theorem dropWhile_of_head_false {α : Type} (p : α → Bool) (c : α) (l : List α)
    (h : p c = false) : (c :: l).dropWhile p = c :: l := by
  simp [List.dropWhile, h]

theorem dropWhile_of_all_false {α : Type} (p : α → Bool) (l : List α)
    (h : ∀ c ∈ l, p c = false) : l.dropWhile p = l := by
  cases l with
  | nil => rfl
  | cons c cs => exact dropWhile_of_head_false p c cs (h c (List.mem_cons_self _ _))

theorem trimChars_of_no_whiteSpace (l : List Char) (h : ∀ c ∈ l, isWhiteSpace c = false) :
    trimChars l = l := by
  unfold trimChars
  rw [dropWhile_of_all_false _ l h, dropWhile_of_all_false _ l.reverse, List.reverse_reverse]
  intro c hc
  exact h c (List.mem_reverse.1 hc)

theorem isWhiteSpace_of_digit (c : Char) (h : isDecimalDigit c = true) :
    isWhiteSpace c = false := by
  simp [isDecimalDigit, isWhiteSpace] at *
  omega

theorem ne_of_digit (c d : Char) (h : isDecimalDigit c = true) (hd : isDecimalDigit d = false) :
    c ≠ d := by
  intro e
  subst e
  rw [h] at hd
  exact Bool.noConfusion hd

theorem takeWhile_append_stop {α : Type} (p : α → Bool) (l1 : List α) (c : α) (l2 : List α)
    (h1 : ∀ a ∈ l1, p a = true) (hc : p c = false) :
    (l1 ++ c :: l2).takeWhile p = l1 ∧ (l1 ++ c :: l2).dropWhile p = c :: l2 := by
  induction l1 with
  | nil => simp [List.takeWhile, List.dropWhile, hc]
  | cons a l1 ih =>
    have ha := h1 a (List.mem_cons_self _ _)
    obtain ⟨i1, i2⟩ := ih (fun b hb => h1 b (List.mem_cons_of_mem _ hb))
    simp [List.takeWhile, List.dropWhile, ha, i1, i2]

theorem takeWhile_dropWhile_of_all {α : Type} (p : α → Bool) (l : List α)
    (h : ∀ a ∈ l, p a = true) : l.takeWhile p = l ∧ l.dropWhile p = [] := by
  induction l with
  | nil => simp
  | cons a l ih =>
    have ha := h a (List.mem_cons_self _ _)
    obtain ⟨i1, i2⟩ := ih (fun b hb => h b (List.mem_cons_of_mem _ hb))
    simp [List.takeWhile, List.dropWhile, ha, i1, i2]

/-- A text of digits and at most one point is a run of digits, or two runs
of digits around the point. -/
theorem digits_point_shape (t : List Char)
    (hall : ∀ c ∈ t, isDecimalDigit c = true ∨ c = '.') (hcount : t.count '.' ≤ 1) :
    (∀ c ∈ t, isDecimalDigit c = true) ∨
      ∃ ip fp, t = ip ++ '.' :: fp ∧ (∀ c ∈ ip, isDecimalDigit c = true) ∧
        (∀ c ∈ fp, isDecimalDigit c = true) := by
  induction t with
  | nil => left; simp
  | cons a t ih =>
    have hall2 : ∀ c ∈ t, isDecimalDigit c = true ∨ c = '.' :=
      fun c hc => hall c (List.mem_cons_of_mem _ hc)
    rcases hall a (List.mem_cons_self _ _) with ha | ha
    · have hne : ('.' : Char) ≠ a := (ne_of_digit a '.' ha (by decide)).symm
      rw [List.count_cons_of_ne hne] at hcount
      rcases ih hall2 hcount with h | ⟨ip, fp, ht, hip, hfp⟩
      · left
        intro c hc
        rcases List.mem_cons.1 hc with h1 | h1
        · rw [h1]; exact ha
        · exact h c h1
      · right
        refine ⟨a :: ip, fp, by rw [ht]; rfl, ?_, hfp⟩
        intro c hc
        rcases List.mem_cons.1 hc with h1 | h1
        · rw [h1]; exact ha
        · exact hip c h1
    · right
      subst ha
      rw [List.count_cons_self] at hcount
      refine ⟨[], t, rfl, by simp, ?_⟩
      intro c hc
      rcases hall2 c hc with h1 | h1
      · exact h1
      · subst h1
        have := List.count_pos_iff.2 hc
        omega

theorem digitsValue_append_singleton (ds : List Char) (c : Char) :
    digitsValue (ds ++ [c]) = 10 * digitsValue ds + digitValue c := by
  simp [digitsValue, List.foldl_append]

theorem digitsValue_append (ds es : List Char) :
    digitsValue (ds ++ es) = digitsValue ds * 10 ^ es.length + digitsValue es := by
  induction es using List.reverseRecOn with
  | nil => simp [digitsValue]
  | append_singleton es c ih =>
    rw [← List.append_assoc, digitsValue_append_singleton, digitsValue_append_singleton, ih]
    simp only [List.length_append, List.length_singleton, pow_succ]
    ring

theorem ofDigits_reverse_eq_digitsValue (ds : List Char) :
    Nat.ofDigits 10 (ds.reverse.map digitValue) = digitsValue ds := by
  induction ds using List.reverseRecOn with
  | nil => simp [digitsValue]
  | append_singleton ds c ih =>
    rw [digitsValue_append_singleton]
    simp only [List.reverse_append, List.reverse_singleton, List.singleton_append, List.map_cons,
      Nat.ofDigits_cons, ih]
    ring

theorem tenPow_zero : tenPow 0 = 1 := by
  show (10 : ℚ) ^ 0 = 1
  simp

theorem writtenNumber_eq (cs : List Char) :
    writtenNumber cs = (digitsValue (cs.filter isDecimalDigit) : ℚ) /
      (10 : ℚ) ^ ((cs.dropWhile (fun c => c != '.')).filter isDecimalDigit).length := by
  unfold writtenNumber
  simp only [ofDigits_reverse_eq_digitsValue]

theorem writtenNumber_integer (ip : List Char) (hip : ∀ c ∈ ip, isDecimalDigit c = true) :
    writtenNumber ip = decimalValue ip [] 0 := by
  have h1 : ip.filter isDecimalDigit = ip := List.filter_eq_self.2 hip
  have h2 : ip.dropWhile (fun c => c != '.') = [] := by
    refine (takeWhile_dropWhile_of_all _ ip ?_).2
    intro c hc
    have := ne_of_digit c '.' (hip c hc) (by decide)
    simpa using this
  rw [writtenNumber_eq, h1, h2]
  unfold decimalValue
  rw [tenPow_zero]
  simp [digitsValue]

theorem writtenNumber_fraction (ip fp : List Char) (hip : ∀ c ∈ ip, isDecimalDigit c = true)
    (hfp : ∀ c ∈ fp, isDecimalDigit c = true) :
    writtenNumber (ip ++ '.' :: fp) = decimalValue ip fp 0 := by
  have h1 : (ip ++ '.' :: fp).filter isDecimalDigit = ip ++ fp := by
    rw [List.filter_append, List.filter_eq_self.2 hip, List.filter_cons_of_neg (by decide),
      List.filter_eq_self.2 hfp]
  have h2 : (ip ++ '.' :: fp).dropWhile (fun c => c != '.') = '.' :: fp := by
    refine (takeWhile_append_stop _ ip '.' fp ?_ (by decide)).2
    intro c hc
    have := ne_of_digit c '.' (hip c hc) (by decide)
    simpa using this
  have h3 : ('.' :: fp).filter isDecimalDigit = fp := by
    rw [List.filter_cons_of_neg (by decide), List.filter_eq_self.2 hfp]
  rw [writtenNumber_eq, h1, h2, h3, digitsValue_append]
  unfold decimalValue
  rw [tenPow_zero]
  have hpos : (10 : ℚ) ^ fp.length ≠ 0 := pow_ne_zero _ (by norm_num)
  push_cast
  field_simp

theorem writtenNumber_strip (l : List Char) :
    writtenNumber (stripPriceSymbols l) = writtenNumber l := by
  have hd : ∀ c : Char, isDecimalDigit c = true → isPriceSymbol c = false := by
    intro c hc
    simp only [isPriceSymbol, Bool.or_eq_false_iff, decide_eq_false_iff_not]
    exact ⟨⟨ne_of_digit c _ hc (by decide), ne_of_digit c _ hc (by decide)⟩,
      ne_of_digit c _ hc (by decide)⟩
  have hf : ∀ m : List Char,
      (m.filter (fun c => !isPriceSymbol c)).filter isDecimalDigit = m.filter isDecimalDigit := by
    intro m
    rw [List.filter_filter]
    congr 1
    funext c
    by_cases hc : isDecimalDigit c = true
    · simp [hc, hd c hc]
    · simp [hc]
  have hw : ((l.filter (fun c => !isPriceSymbol c)).dropWhile (fun c => c != '.')).filter
      isDecimalDigit = (l.dropWhile (fun c => c != '.')).filter isDecimalDigit := by
    induction l with
    | nil => rfl
    | cons c l ih =>
      by_cases hs : isPriceSymbol c = true
      · have hne : (c != '.') = true := by
          have : c ≠ '.' := by
            intro e
            subst e
            revert hs
            decide
          simpa using this
        simp only [List.filter_cons, hs, Bool.not_true, Bool.false_eq_true, if_false,
          List.dropWhile_cons, hne, if_true]
        exact ih
      · by_cases hp : c = '.'
        · subst hp
          have e1 : (('.' : Char) != '.') = false := by decide
          simp only [List.filter_cons, hs, Bool.not_false, if_true, List.dropWhile_cons, e1,
            Bool.false_eq_true, if_false]
          have e2 : isDecimalDigit '.' = false := by decide
          simp only [e2, Bool.false_eq_true, if_false]
          exact hf l
        · have hne : (c != '.') = true := by simpa using hp
          simp only [List.filter_cons, hs, Bool.not_false, if_true, List.dropWhile_cons, hne]
          exact ih
  rw [writtenNumber_eq, writtenNumber_eq, stripPriceSymbols_eq_filter, hf, hw]

theorem ofRat_ne_nan (q : ℚ) : JSNumber.ofRat q ≠ JSNumber.nan := by
  unfold JSNumber.ofRat
  split
  · split <;> simp
  · split <;> simp

theorem orZero_eq_self (x : JSNumber) (h : x ≠ JSNumber.nan) : x.orZero = x := by
  cases x with
  | nan => exact absurd rfl h
  | posInf => rfl
  | negInf => rfl
  | fin q =>
    by_cases hq : q = 0
    · subst hq
      simp [JSNumber.orZero, JSNumber.truthy]
    · simp [JSNumber.orZero, JSNumber.truthy, hq]

theorem orZero_ne_nan (x : JSNumber) : x.orZero ≠ JSNumber.nan := by
  unfold JSNumber.orZero
  split
  · rename_i h
    intro e
    rw [e] at h
    simp [JSNumber.truthy] at h
  · simp

theorem isPrefixOf_infinity_of_head (c : Char) (u : List Char) (h : c ≠ 'I') :
    infinityChars.isPrefixOf (c :: u) = false := by
  have : ('I' == c) = false := by simpa using h.symm
  simp [infinityChars, List.isPrefixOf, this]

theorem parseFloatChars_of_head (c : Char) (u : List Char) (hws : isWhiteSpace c = false)
    (hm : c ≠ '-') (hp : c ≠ '+') :
    parseFloatChars (c :: u) = signedValue false (parseUnsigned (c :: u)) := by
  unfold parseFloatChars
  rw [dropWhile_of_head_false _ c u hws]
  simp only [hm, hp, if_false]

theorem parseUnsigned_integer (ip : List Char) (hip : ∀ c ∈ ip, isDecimalDigit c = true)
    (hne : ip ≠ []) : parseUnsigned ip = some (some (decimalValue ip [] 0)) := by
  obtain ⟨c, u, rfl⟩ := List.exists_cons_of_ne_nil hne
  have hc := hip c (List.mem_cons_self _ _)
  unfold parseUnsigned
  rw [isPrefixOf_infinity_of_head c u (ne_of_digit c 'I' hc (by decide))]
  obtain ⟨h1, h2⟩ := takeWhile_dropWhile_of_all isDecimalDigit (c :: u) hip
  simp only [h1, h2]
  simp

theorem parseUnsigned_fraction (ip fp : List Char) (hip : ∀ c ∈ ip, isDecimalDigit c = true)
    (hfp : ∀ c ∈ fp, isDecimalDigit c = true) (hne : ip ≠ [] ∨ fp ≠ []) :
    parseUnsigned (ip ++ '.' :: fp) = some (some (decimalValue ip fp 0)) := by
  have hI : infinityChars.isPrefixOf (ip ++ '.' :: fp) = false := by
    cases ip with
    | nil => exact isPrefixOf_infinity_of_head '.' fp (by decide)
    | cons c u =>
      exact isPrefixOf_infinity_of_head c _
        (ne_of_digit c 'I' (hip c (List.mem_cons_self _ _)) (by decide))
  obtain ⟨h1, h2⟩ := takeWhile_append_stop isDecimalDigit ip '.' fp hip (by decide)
  obtain ⟨h3, h4⟩ := takeWhile_dropWhile_of_all isDecimalDigit fp hfp
  unfold parseUnsigned
  rw [hI]
  simp only [h1, h2, h3, h4, parseExponent]
  have hemp : (ip.isEmpty && fp.isEmpty) = false := by
    rcases hne with h | h
    · cases ip with
      | nil => exact absurd rfl h
      | cons _ _ => rfl
    · cases fp with
      | nil => exact absurd rfl h
      | cons _ _ => simp
  simp [hemp]

theorem parseFloatChars_numeric_head (t : List Char) (hne : t ≠ [])
    (hall : ∀ c ∈ t, isDecimalDigit c = true ∨ c = '.') :
    parseFloatChars t = signedValue false (parseUnsigned t) := by
  obtain ⟨c, u, rfl⟩ := List.exists_cons_of_ne_nil hne
  rcases hall c (List.mem_cons_self _ _) with hc | hc
  · exact parseFloatChars_of_head c u (isWhiteSpace_of_digit c hc)
      (ne_of_digit c '-' hc (by decide)) (ne_of_digit c '+' hc (by decide))
  · subst hc
    exact parseFloatChars_of_head '.' u (by decide) (by decide) (by decide)

/-- The normalisation of a price whose text, once the price symbols are
removed, is made of digits, with at least one, and at most one point. -/
theorem cleanPrice_of_stripped_digits (price : String)
    (hall : ∀ c ∈ stripPriceSymbols price.data, isDecimalDigit c = true ∨ c = '.')
    (hdigit : ∃ c ∈ stripPriceSymbols price.data, isDecimalDigit c = true)
    (hpoint : (stripPriceSymbols price.data).count '.' ≤ 1) :
    cleanPrice price = JSNumber.ofRat (writtenNumber (stripPriceSymbols price.data)) := by
  have hws : ∀ c ∈ stripPriceSymbols price.data, isWhiteSpace c = false := by
    intro c hc
    rcases hall c hc with h | h
    · exact isWhiteSpace_of_digit c h
    · subst h
      decide
  have hne : stripPriceSymbols price.data ≠ [] := by
    obtain ⟨c, hc, _⟩ := hdigit
    exact List.ne_nil_of_mem hc
  unfold cleanPrice cleanPriceText parseFloat trim
  simp only [trimChars_of_no_whiteSpace _ hws]
  rw [parseFloatChars_numeric_head _ hne hall]
  rcases digits_point_shape _ hall hpoint with h | ⟨ip, fp, ht, hip, hfp⟩
  · rw [parseUnsigned_integer _ h hne, writtenNumber_integer _ h]
    exact orZero_eq_self _ (ofRat_ne_nan _)
  · have hne2 : ip ≠ [] ∨ fp ≠ [] := by
      obtain ⟨c, hc, hd⟩ := hdigit
      rw [ht] at hc
      rcases List.mem_append.1 hc with h1 | h1
      · exact Or.inl (List.ne_nil_of_mem h1)
      · rcases List.mem_cons.1 h1 with h2 | h2
        · subst h2
          exact absurd hd (by decide)
        · exact Or.inr (List.ne_nil_of_mem h2)
    rw [ht, parseUnsigned_fraction ip fp hip hfp hne2, writtenNumber_fraction ip fp hip hfp]
    exact orZero_eq_self _ (ofRat_ne_nan _)

theorem head_of_dropWhile {α : Type} (p : α → Bool) (l : List α) (c : α) (rest : List α)
    (h : l.dropWhile p = c :: rest) : p c = false := by
  induction l with
  | nil => simp at h
  | cons a l ih =>
    by_cases ha : p a = true
    · rw [List.dropWhile_cons_of_pos ha] at h
      exact ih h
    · rw [List.dropWhile_cons_of_neg ha] at h
      have := (List.cons.inj h).1
      rw [← this]
      simpa using ha

theorem dropWhile_append_last {α : Type} (p : α → Bool) (l : List α) (c : α)
    (hc : p c = false) : (l ++ [c]).dropWhile p = l.dropWhile p ++ [c] := by
  induction l with
  | nil => simp [List.dropWhile, hc]
  | cons a l ih =>
    by_cases ha : p a = true
    · simp only [List.cons_append, List.dropWhile_cons_of_pos ha, ih]
    · simp only [List.cons_append, List.dropWhile_cons_of_neg ha]

theorem trimChars_head (t : List Char) (c : Char) (rest : List Char)
    (h : t.dropWhile isWhiteSpace = c :: rest) :
    ∃ rest2, trimChars t = c :: rest2 := by
  have hc := head_of_dropWhile _ _ _ _ h
  unfold trimChars
  rw [h, List.reverse_cons, dropWhile_append_last _ _ _ hc, List.reverse_append]
  exact ⟨_, rfl⟩

theorem parseUnsigned_of_bad_head (c : Char) (u : List Char) (hd : isDecimalDigit c = false)
    (hpt : c ≠ '.') (hI : c ≠ 'I') : parseUnsigned (c :: u) = none := by
  unfold parseUnsigned
  rw [isPrefixOf_infinity_of_head c u hI]
  simp [List.takeWhile, List.dropWhile, hd, hpt]

/-- C7 as stated fails at `"Rs. 2,499"`: only the comma is removed, the text
`Rs. 2499` that is parsed begins with a letter, and the normalised price is 0,
neither 2499 nor the number written by the remaining digits and point. -/
theorem rupees_abbreviation_normalises_to_zero :
    cleanPriceText "Rs. 2,499" = "Rs. 2499" ∧
    cleanPrice "Rs. 2,499" = JSNumber.fin 0 ∧
    cleanPrice "Rs. 2,499" ≠ JSNumber.fin 2499 ∧
    cleanPrice "Rs. 2,499" ≠ JSNumber.ofRat (writtenNumber "Rs. 2,499".data) := by
  decide!

/-- C7, amended: the normalisation removes exactly the characters `$`, `,` and
`₹` and trims before parsing. When what remains is made of digits, with at
least one, and at most one point, the result is the number it writes; when what
remains begins, after leading white space, with a character that is neither a
digit, a sign, a point nor `I`, the result is 0, as for `"Rs. 2,499"`. -/
theorem cleanPrice_strips_price_symbols_only (price : String) :
    (cleanPriceText price).data
      = trimChars (price.data.filter (fun c => !(c = '$' || c = ',' || c = '₹'))) ∧
    ((∀ c ∈ price.data.filter (fun c => !(c = '$' || c = ',' || c = '₹')),
          isDecimalDigit c = true ∨ c = '.') →
      (∃ c ∈ price.data.filter (fun c => !(c = '$' || c = ',' || c = '₹')),
          isDecimalDigit c = true) →
      (price.data.filter (fun c => !(c = '$' || c = ',' || c = '₹'))).count '.' ≤ 1 →
      cleanPrice price = JSNumber.ofRat
        (writtenNumber (price.data.filter (fun c => !(c = '$' || c = ',' || c = '₹'))))) ∧
    (∀ c rest,
      (price.data.filter (fun c => !(c = '$' || c = ',' || c = '₹'))).dropWhile isWhiteSpace
          = c :: rest →
      isDecimalDigit c = false → c ≠ '+' → c ≠ '-' → c ≠ '.' → c ≠ 'I' →
      cleanPrice price = JSNumber.fin 0) ∧
    cleanPrice "Rs. 2,499" = JSNumber.fin 0 := by
  have hf : price.data.filter (fun c => !(c = '$' || c = ',' || c = '₹'))
      = stripPriceSymbols price.data := by
    rw [stripPriceSymbols_eq_filter]
    rfl
  rw [hf]
  refine ⟨rfl, ?_, ?_, by decide!⟩
  · intro hall hdigit hpoint
    exact cleanPrice_of_stripped_digits price hall hdigit hpoint
  · intro c rest hdrop hd hp hm hpt hI
    obtain ⟨rest2, htrim⟩ := trimChars_head _ c rest hdrop
    have hws := head_of_dropWhile _ _ _ _ hdrop
    unfold cleanPrice cleanPriceText parseFloat trim
    simp only [htrim]
    rw [parseFloatChars_of_head c rest2 hws hm hp, parseUnsigned_of_bad_head c rest2 hd hpt hI]
    rfl

/-- C7, amended, at `"Rs. 2,499"`: what remains, `Rs. 2499`, begins with `R`. -/
theorem cleanPrice_strips_price_symbols_only_witness :
    ("Rs. 2,499".data.filter (fun c => !(c = '$' || c = ',' || c = '₹'))).dropWhile isWhiteSpace
        = 'R' :: "s. 2499".data ∧
    cleanPrice "Rs. 2,499" = JSNumber.fin 0 :=
  ⟨by decide!,
    (cleanPrice_strips_price_symbols_only "Rs. 2,499").2.2.1 'R' "s. 2499".data (by decide!)
      (by decide) (by decide) (by decide) (by decide) (by decide)⟩

/-- C8: for a raw price made only of decimal digits, with at least one, at
most one decimal point, and any number of `₹`, `$` and commas, the
normalisation returns the number written by the digits and the point alone;
`"₹1,234"` gives 1234 and `"$99.99"` gives 99.99. -/
theorem cleanPrice_of_digits_and_symbols :
    (∀ price : String,
      (∀ c ∈ price.data, isDecimalDigit c = true ∨ c = '.' ∨ c = '₹' ∨ c = '$' ∨ c = ',') →
      (∃ c ∈ price.data, isDecimalDigit c = true) →
      price.data.count '.' ≤ 1 →
      cleanPrice price = JSNumber.ofRat (writtenNumber price.data)) ∧
    cleanPrice "₹1,234" = JSNumber.fin 1234 ∧
    cleanPrice "$99.99" = JSNumber.ofRat (9999 / 100) := by
  refine ⟨?_, by decide!, by decide!⟩
  intro price hchars hdigit hpoint
  have hsym : ∀ c : Char, isDecimalDigit c = true ∨ c = '.' → isPriceSymbol c = false := by
    intro c hc
    rcases hc with h | h
    · simp only [isPriceSymbol, Bool.or_eq_false_iff, decide_eq_false_iff_not]
      exact ⟨⟨ne_of_digit c _ h (by decide), ne_of_digit c _ h (by decide)⟩,
        ne_of_digit c _ h (by decide)⟩
    · subst h
      decide
  have hall : ∀ c ∈ stripPriceSymbols price.data, isDecimalDigit c = true ∨ c = '.' := by
    intro c hc
    rw [stripPriceSymbols_eq_filter, List.mem_filter] at hc
    obtain ⟨hmem, hns⟩ := hc
    rcases hchars c hmem with h | h | h | h | h
    · exact Or.inl h
    · exact Or.inr h
    · subst h
      exact absurd hns (by decide)
    · subst h
      exact absurd hns (by decide)
    · subst h
      exact absurd hns (by decide)
  have hdig : ∃ c ∈ stripPriceSymbols price.data, isDecimalDigit c = true := by
    obtain ⟨c, hc, hd⟩ := hdigit
    refine ⟨c, ?_, hd⟩
    rw [stripPriceSymbols_eq_filter, List.mem_filter]
    exact ⟨hc, by simp [hsym c (Or.inl hd)]⟩
  have hcnt : (stripPriceSymbols price.data).count '.' ≤ 1 := by
    rw [stripPriceSymbols_eq_filter]
    exact le_trans ((List.filter_sublist _).count_le _) hpoint
  rw [cleanPrice_of_stripped_digits price hall hdig hcnt, writtenNumber_strip]

/-- C8 at `"₹1,234.50"`: the text meets the three conditions and its
normalised price is the number written by `1234.50`. -/
theorem cleanPrice_of_digits_and_symbols_witness :
    (∀ c ∈ "₹1,234.50".data,
        isDecimalDigit c = true ∨ c = '.' ∨ c = '₹' ∨ c = '$' ∨ c = ',') ∧
    (∃ c ∈ "₹1,234.50".data, isDecimalDigit c = true) ∧
    "₹1,234.50".data.count '.' ≤ 1 ∧
    cleanPrice "₹1,234.50" = JSNumber.ofRat (writtenNumber "₹1,234.50".data) :=
  ⟨by decide!, by decide!, by decide!,
    cleanPrice_of_digits_and_symbols.1 "₹1,234.50" (by decide!) (by decide!) (by decide!)⟩

/-- C9 as stated fails at `"-5"`: the parsed value, -5, is not positive, and
the normalisation yields -5, not 0. -/
theorem negative_price_is_not_zeroed :
    parseFloat (cleanPriceText "-5") = JSNumber.fin (-5) ∧
    (parseFloat (cleanPriceText "-5")).gtZero = false ∧
    cleanPrice "-5" = JSNumber.fin (-5) ∧
    cleanPrice "-5" ≠ JSNumber.fin 0 := by
  decide!

/-- C9, amended: the normalisation never yields `NaN`; when the parse fails
or the parsed value is zero it yields exactly 0; a negative parsed value is
left as it is. Whenever the normalised price is not greater than 0 the record
carrying it is rejected by `saveProducts`; `"abc"` and `"$0"` yield 0 and the
records carrying them are rejected. -/
theorem cleanPrice_zero_on_failure (price : String) :
    cleanPrice price ≠ JSNumber.nan ∧
    (parseFloat (cleanPriceText price) = JSNumber.nan ∨
        parseFloat (cleanPriceText price) = JSNumber.fin 0 →
      cleanPrice price = JSNumber.fin 0) ∧
    ((parseFloat (cleanPriceText price)).ltZero = true →
      cleanPrice price = parseFloat (cleanPriceText price)) ∧
    ((cleanPrice price).gtZero = false →
      ∀ (w : World) (slot : ℕ) (store : List ProductDoc) (products : List RawProduct)
        (query platformsString : String) (startId step : ℕ),
        ∀ r ∈ (saveProducts w slot store products query platformsString startId step).saved,
          r.price ≠ cleanPrice price) ∧
    cleanPrice "abc" = JSNumber.fin 0 ∧ cleanPrice "$0" = JSNumber.fin 0 ∧
    (∀ (w : World) (slot : ℕ) (store : List ProductDoc) (query platformsString : String)
        (startId step : ℕ) (platform name : String) (image link : Option String),
      (saveProducts w slot store
        [⟨platform, name, "abc", image, link⟩, ⟨platform, name, "$0", image, link⟩]
        query platformsString startId step).saved = []) := by
  refine ⟨orZero_ne_nan _, ?_, ?_, ?_, by decide!, by decide!, ?_⟩
  · intro h
    unfold cleanPrice
    rcases h with h | h
    · rw [h]
      rfl
    · rw [h]
      simp [JSNumber.orZero, JSNumber.truthy]
  · intro h
    unfold cleanPrice
    apply orZero_eq_self
    intro e
    rw [e] at h
    simp [JSNumber.ltZero] at h
  · intro h w slot store products query platformsString startId step r hr e
    rw [saveProducts_saved, mem_productsToSave] at hr
    obtain ⟨_, _, _, _, hkeep⟩ := hr
    unfold keepSaved at hkeep
    rw [Bool.and_eq_true, e, h] at hkeep
    exact Bool.noConfusion hkeep.1
  · intro w slot store query platformsString startId step platform name image link
    rw [saveProducts_saved]
    have e1 : cleanPrice "abc" = JSNumber.fin 0 := by decide!
    have e2 : cleanPrice "$0" = JSNumber.fin 0 := by decide!
    simp [productsToSave, mapIndexFrom, keepSaved, assembleOne, e1, e2, JSNumber.gtZero]

/-- C9, amended, at `"abc"`: the parse fails and the normalised price is 0. -/
theorem cleanPrice_zero_on_failure_witness :
    parseFloat (cleanPriceText "abc") = JSNumber.nan ∧ cleanPrice "abc" = JSNumber.fin 0 :=
  ⟨by decide!, (cleanPrice_zero_on_failure "abc").2.1 (Or.inl (by decide!))⟩

/-! ## Lemmas on the platform list -/

theorem splitOn_ne_nil (sep : Char) (l : List Char) : splitOn sep l ≠ [] := by
  cases l with
  | nil => simp [splitOn]
  | cons c cs =>
    unfold splitOn
    split
    · simp
    · split <;> simp

theorem length_splitOn (sep : Char) (l : List Char) :
    (splitOn sep l).length = l.count sep + 1 := by
  induction l with
  | nil => simp [splitOn]
  | cons c cs ih =>
    unfold splitOn
    by_cases h : c = sep
    · subst h
      simp [ih]
    · have hne : sep ≠ c := fun e => h e.symm
      rw [if_neg h, List.count_cons_of_ne hne]
      cases hs : splitOn sep cs with
      | nil => exact absurd hs (splitOn_ne_nil sep cs)
      | cons x xs =>
        rw [hs] at ih
        simpa using ih

theorem joinWith_splitOn (sep : Char) (l : List Char) : joinWith sep (splitOn sep l) = l := by
  induction l with
  | nil => simp [splitOn, joinWith]
  | cons c cs ih =>
    unfold splitOn
    by_cases h : c = sep
    · subst h
      rw [if_pos rfl]
      cases hs : splitOn c cs with
      | nil => exact absurd hs (splitOn_ne_nil c cs)
      | cons x xs =>
        rw [hs] at ih
        simp [joinWith, ih]
    · rw [if_neg h]
      cases hs : splitOn sep cs with
      | nil => exact absurd hs (splitOn_ne_nil sep cs)
      | cons x xs =>
        rw [hs] at ih
        cases xs with
        | nil =>
          simp only [joinWith] at ih ⊢
          rw [ih]
        | cons y ys =>
          simp only [joinWith] at ih ⊢
          rw [← ih]
          rfl

theorem not_mem_of_mem_splitOn (sep : Char) (l : List Char) :
    ∀ item ∈ splitOn sep l, sep ∉ item := by
  induction l with
  | nil => simp [splitOn]
  | cons c cs ih =>
    unfold splitOn
    by_cases h : c = sep
    · subst h
      rw [if_pos rfl]
      intro item hitem
      rcases List.mem_cons.1 hitem with h1 | h1
      · rw [h1]
        simp
      · exact ih item h1
    · rw [if_neg h]
      cases hs : splitOn sep cs with
      | nil => exact absurd hs (splitOn_ne_nil sep cs)
      | cons x xs =>
        rw [hs] at ih
        intro item hitem
        rcases List.mem_cons.1 hitem with h1 | h1
        · rw [h1]
          intro hm
          rcases List.mem_cons.1 hm with h2 | h2
          · exact h h2.symm
          · exact ih x (List.mem_cons_self _ _) h2
        · exact ih item (List.mem_cons_of_mem _ h1)

/-- C11 as stated fails: for the non-empty parameter `amazon`, without a
comma, the resolved platform list has one entry, not two. -/
theorem single_platform_resolves_to_one_entry :
    truthyStr "amazon" = true ∧ resolvePlatforms "amazon" = ["amazon"] ∧
    (resolvePlatforms "amazon").length ≠ 2 := by
  decide!

/-- C11, amended: the comma-separated items of the parameter are the texts
without a comma that, joined by commas, give the parameter back; the resolved
platform list has `min 2 n` entries for `n` items, two when the parameter has
a comma and one otherwise, and its entry `i` is the trimmed, lowercased item
`i`. -/
theorem resolvePlatforms_entries (platformsString : String) :
    joinWith ',' (splitOn ',' platformsString.data) = platformsString.data ∧
    (∀ item ∈ splitOn ',' platformsString.data, ',' ∉ item) ∧
    (resolvePlatforms platformsString).length = min 2 (platformsString.data.count ',' + 1) ∧
    (∀ i, i < (resolvePlatforms platformsString).length →
      (resolvePlatforms platformsString)[i]?
        = ((splitOn ',' platformsString.data)[i]?).map (fun item => toLowerCase (trim ⟨item⟩))) := by
  refine ⟨joinWith_splitOn _ _, not_mem_of_mem_splitOn _ _, ?_, ?_⟩
  · unfold resolvePlatforms
    rw [List.length_take, List.length_map, length_splitOn]
  · intro i hi
    unfold resolvePlatforms at hi ⊢
    rw [List.length_take] at hi
    rw [List.getElem?_take_of_lt (by omega), List.getElem?_map]

/-- C11, amended, at `" Amazon , FLIPKART,x"`: three items, two entries. -/
theorem resolvePlatforms_entries_witness :
    (resolvePlatforms " Amazon , FLIPKART,x").length = 2 ∧
    (resolvePlatforms " Amazon , FLIPKART,x")[1]? = some "flipkart" :=
  ⟨by
      rw [(resolvePlatforms_entries " Amazon , FLIPKART,x").2.2.1]
      decide!,
    by
      rw [(resolvePlatforms_entries " Amazon , FLIPKART,x").2.2.2 1 (by decide!)]
      decide!⟩

/-! ## Lemmas on the handler -/

theorem scrapeSlot_fst (w : World) (slot : ℕ) (platform : Option String)
    (query platformsString : String) (store : List ProductDoc) :
    (scrapeSlot w slot platform query platformsString store).1
      = slotSaved w slot platform query platformsString := by
  unfold scrapeSlot slotSaved
  split
  · rfl
  · rfl
  · split
    · rfl
    · simp only [saveProducts_saved]

theorem apiSearch_response (w : World) (q platformsString : String) (store : List ProductDoc)
    (hq : q ≠ "") (hp : platformsString ≠ "") :
    (apiSearch w ⟨some q, some platformsString⟩ store).response
      = searchResponse w (toLowerCase q) platformsString store := by
  have hq2 : truthyStr (toLowerCase q) = true := by
    rw [truthyStr_iff]
    intro h
    exact hq ((toLowerCase_eq_empty q).1 h)
  have hp2 : truthyStr platformsString = true := (truthyStr_iff platformsString).2 hp
  have h1 := scrapeSlot_fst w 1 (resolvePlatforms platformsString)[0]? (toLowerCase q)
    platformsString store
  simp only [apiSearch, searchResponse, Option.map_some', hq2, hp2, Bool.not_true, Bool.or_self,
    Bool.false_eq_true, if_false]
  split
  · rfl
  · split
    · split <;> rfl
    · rw [← h1]
      rcases hs1 : scrapeSlot w 1 (resolvePlatforms platformsString)[0]? (toLowerCase q)
        platformsString store with ⟨o1, store1, trace1⟩
      cases o1 with
      | none => simp only []
      | some savedP1 =>
        simp only []
        have h2 := scrapeSlot_fst w 2 (resolvePlatforms platformsString)[1]? (toLowerCase q)
          platformsString store1
        rw [← h2]
        rcases hs2 : scrapeSlot w 2 (resolvePlatforms platformsString)[1]? (toLowerCase q)
          platformsString store1 with ⟨o2, store2, trace2⟩
        cases o2 <;> simp

theorem apiSearch_badRequest_or_valid (req : Request) :
    (∀ (w : World) (store : List ProductDoc),
        (apiSearch w req store).response = Response.badRequest ∧
        (apiSearch w req store).store = store ∧ (apiSearch w req store).trace = []) ∨
      ∃ q platformsString, req = ⟨some q, some platformsString⟩ ∧ q ≠ "" ∧
        platformsString ≠ "" := by
  obtain ⟨q, platforms⟩ := req
  cases q with
  | none => left; intro w store; simp [apiSearch]
  | some q =>
    cases platforms with
    | none => left; intro w store; simp [apiSearch]
    | some ps =>
      by_cases hq : q = ""
      · left
        intro w store
        subst hq
        simp [apiSearch, toLowerCase, truthyStr]
      · by_cases hp : ps = ""
        · left
          intro w store
          subst hp
          simp [apiSearch, truthyStr]
        · right
          exact ⟨q, ps, rfl, hq, hp⟩

theorem sortById_pairwise {α : Type} (id : α → ℕ) (xs : List α) :
    (sortById id xs).Pairwise (fun a b => id a ≤ id b) := by
  haveI : IsTotal α (fun a b => id a ≤ id b) := ⟨fun a b => Nat.le_total (id a) (id b)⟩
  haveI : IsTrans α (fun a b => id a ≤ id b) := ⟨fun _ _ _ h1 h2 => Nat.le_trans h1 h2⟩
  exact List.sorted_insertionSort (fun a b : α => id a ≤ id b) xs

theorem mem_sortById {α : Type} (id : α → ℕ) (xs : List α) (a : α) :
    a ∈ sortById id xs ↔ a ∈ xs :=
  (List.perm_insertionSort _ xs).mem_iff

theorem slotSaved_keep (w : World) (slot : ℕ) (platform : Option String)
    (query platformsString : String) (saved : List SavedProduct)
    (h : slotSaved w slot platform query platformsString = some saved) :
    ∀ p ∈ saved, keepSaved p = true := by
  unfold slotSaved at h
  split at h
  · simp at h
    subst h
    simp
  · simp at h
  · split at h
    · simp at h
    · simp at h
      subst h
      intro p hp
      rw [mem_productsToSave] at hp
      obtain ⟨_, _, _, _, hk⟩ := hp
      exact hk

/-- C13: the list of every successful `/api/search` response is in ascending
order of `id`, and each of its elements is the six-field projection
`{id, platform, name, price, image, link}` of a persisted document of the
request's key (cache path) or of an assembled record that passed the filter
(scrape path). -/
theorem apiSearch_ok_sorted_projected (w : World) (req : Request) (store : List ProductDoc)
    (items : List Projected) (h : (apiSearch w req store).response = Response.ok items) :
    items.Pairwise (fun a b => a.id ≤ b.id) ∧
    ∀ item ∈ items,
      (∃ d ∈ store, item = projectDoc d) ∨
      (∃ p : SavedProduct, keepSaved p = true ∧ item = projectSaved p) := by
  rcases apiSearch_badRequest_or_valid req with hbad | ⟨q, ps, hreq, hq, hp⟩
  · rw [(hbad w store).1] at h
    exact Response.noConfusion h
  · subst hreq
    rw [apiSearch_response w q ps store hq hp] at h
    unfold searchResponse at h
    split at h
    · exact Response.noConfusion h
    · split at h
      · split at h
        · exact Response.noConfusion h
        · injection h with h
          subst h
          constructor
          · rw [List.pairwise_map]
            exact sortById_pairwise ProductDoc.id _
          · intro item hitem
            rw [List.mem_map] at hitem
            obtain ⟨d, hd, rfl⟩ := hitem
            unfold cachedProducts at hd
            rw [mem_sortById] at hd
            exact Or.inl ⟨d, (List.mem_filter.1 hd).1, rfl⟩
      · split at h
        · rename_i savedP1 savedP2 h1 h2
          injection h with h
          subst h
          constructor
          · rw [List.pairwise_map]
            exact sortById_pairwise SavedProduct.id _
          · intro item hitem
            rw [List.mem_map] at hitem
            obtain ⟨p, hp2, rfl⟩ := hitem
            rw [mem_sortById, List.mem_append] at hp2
            right
            rcases hp2 with hm | hm
            · exact ⟨p, slotSaved_keep _ _ _ _ _ _ h1 p hm, rfl⟩
            · exact ⟨p, slotSaved_keep _ _ _ _ _ _ h2 p hm, rfl⟩
        · exact Response.noConfusion h

/-- C13 at the cold search for `phone`: the answer is the list of `A` (id 1)
and `B` (id 2), in ascending order of id. -/
theorem apiSearch_ok_sorted_projected_witness :
    (apiSearch (bothReturn 1000000) phoneRequest []).response
      = Response.ok [projectedA, projectedB] ∧
    [projectedA, projectedB].Pairwise (fun a b => a.id ≤ b.id) :=
  ⟨by decide!,
    (apiSearch_ok_sorted_projected (bothReturn 1000000) phoneRequest []
      [projectedA, projectedB] (by decide!)).1⟩

/-- C16 as stated fails: when every write to the database fails, the cold
search for `phone` is still answered with the successful list of both
records, and nothing is persisted. -/
theorem unreachable_store_still_answers_ok :
    (apiSearch (writesFail 1000000) phoneRequest []).response
      = Response.ok [projectedA, projectedB] ∧
    (apiSearch (writesFail 1000000) phoneRequest []).store = [] := by
  decide!

/-- C16, amended: whatever the delete and the insert of the store step do,
`saveProducts` returns the assembled records, and the answer of `/api/search`
is the one it gives when the writes succeed: two worlds that differ only in
their write failures (and document stamps) get the same response. -/
theorem write_failures_leave_the_response (w w2 : World) (req : Request)
    (store : List ProductDoc) (hnow : w2.now = w.now)
    (hfindOne : w2.findOneFails = w.findOneFails) (hfind : w2.findFails = w.findFails)
    (hscrape : w2.scrape = w.scrape) :
    (∀ (slot : ℕ) (st : List ProductDoc) (products : List RawProduct)
        (query platformsString : String) (startId step : ℕ),
      (saveProducts w2 slot st products query platformsString startId step).saved
        = productsToSave products query platformsString startId step) ∧
    (apiSearch w2 req store).response = (apiSearch w req store).response := by
  refine ⟨fun slot st products query platformsString startId step =>
    saveProducts_saved w2 slot st products query platformsString startId step, ?_⟩
  rcases apiSearch_badRequest_or_valid req with hbad | ⟨q, ps, hreq, hq, hp⟩
  · rw [(hbad w store).1, (hbad w2 store).1]
  · subst hreq
    rw [apiSearch_response w q ps store hq hp, apiSearch_response w2 q ps store hq hp]
    simp only [searchResponse, slotSaved, hnow, hfindOne, hfind, hscrape]

/-- C16, amended, at the cold search for `phone`: with every write failing the
answer is the one given when the writes succeed. -/
theorem write_failures_leave_the_response_witness :
    (apiSearch (writesFail 1000000) phoneRequest []).response
      = (apiSearch (bothReturn 1000000) phoneRequest []).response :=
  (write_failures_leave_the_response (bothReturn 1000000) (writesFail 1000000) phoneRequest []
    rfl rfl rfl rfl).2

/-- C17 as stated fails: when the read of the freshness lookup fails, the
search for `phone` is answered 500 and no adapter is called. -/
theorem failed_lookup_is_not_a_miss :
    (apiSearch (lookupFails 1000000) phoneRequest []).response = Response.serverError ∧
    (apiSearch (lookupFails 1000000) phoneRequest []).trace = [Event.findOne] := by
  decide!

/-- C17, amended: whenever the read of the freshness lookup fails, a request
with non-empty `q` and `platforms` is answered 500; no adapter is called,
nothing is written and the collection is unchanged. -/
theorem lookup_failure_answers_500 (w : World) (q platformsString : String)
    (store : List ProductDoc) (hq : q ≠ "") (hp : platformsString ≠ "")
    (hfail : w.findOneFails = true) :
    (apiSearch w ⟨some q, some platformsString⟩ store).response = Response.serverError ∧
    (apiSearch w ⟨some q, some platformsString⟩ store).trace = [Event.findOne] ∧
    (apiSearch w ⟨some q, some platformsString⟩ store).store = store := by
  have hq2 : truthyStr (toLowerCase q) = true := by
    rw [truthyStr_iff]
    intro h
    exact hq ((toLowerCase_eq_empty q).1 h)
  have hp2 : truthyStr platformsString = true := (truthyStr_iff platformsString).2 hp
  simp [apiSearch, hq2, hp2, hfail]

/-- C17, amended, at the search for `phone` with a failing lookup. -/
theorem lookup_failure_answers_500_witness :
    (apiSearch (lookupFails 1000000) ⟨some "phone", some "amazon,flipkart"⟩ [docA 0]).response
      = Response.serverError ∧
    (apiSearch (lookupFails 1000000) ⟨some "phone", some "amazon,flipkart"⟩ [docA 0]).trace
      = [Event.findOne] ∧
    (apiSearch (lookupFails 1000000) ⟨some "phone", some "amazon,flipkart"⟩ [docA 0]).store
      = [docA 0] :=
  lookup_failure_answers_500 (lookupFails 1000000) "phone" "amazon,flipkart" [docA 0]
    (by decide) (by decide) rfl

/-! ## Lemmas on the collection -/

theorem mem_deleteMany (store : List ProductDoc) (query platformsString : String)
    (d : ProductDoc) :
    d ∈ deleteMany store query platformsString ↔
      d ∈ store ∧ matchesKey query platformsString d = false := by
  unfold deleteMany
  rw [List.mem_filter]
  simp

theorem insertOne_cases (store : List ProductDoc) (d : ProductDoc) :
    (insertOne store d = store) ∨
      (insertOne store d = store ++ [d] ∧ validDoc d = true ∧ ∀ a ∈ store, a.id ≠ d.id) := by
  unfold insertOne
  split
  · rename_i h
    right
    rw [Bool.and_eq_true] at h
    refine ⟨rfl, h.1, ?_⟩
    intro a ha hid
    have h2 := h.2
    simp only [Bool.not_eq_true', List.any_eq_false, decide_eq_true_eq] at h2
    exact h2 a ha hid
  · left
    rfl

theorem insertMany_cons (store : List ProductDoc) (d : ProductDoc) (docs : List ProductDoc) :
    insertMany store (d :: docs) = insertMany (insertOne store d) docs := rfl

/-- An unordered insert appends some of the given documents, in their order,
with ids that are new to the collection and pairwise distinct. -/
theorem insertMany_eq_append (store docs : List ProductDoc) :
    ∃ l, insertMany store docs = store ++ l ∧ l.Sublist docs ∧
      l.Pairwise (fun a b => a.id ≠ b.id) ∧ ∀ x ∈ l, ∀ a ∈ store, a.id ≠ x.id := by
  induction docs generalizing store with
  | nil => exact ⟨[], by simp [insertMany], List.Sublist.refl _, List.Pairwise.nil, by simp⟩
  | cons d docs ih =>
    rw [insertMany_cons]
    rcases insertOne_cases store d with h | ⟨h, _, hfresh⟩
    · rw [h]
      obtain ⟨l, h1, h2, h3, h4⟩ := ih store
      exact ⟨l, h1, h2.cons d, h3, h4⟩
    · rw [h]
      obtain ⟨l, h1, h2, h3, h4⟩ := ih (store ++ [d])
      refine ⟨d :: l, by rw [h1]; simp, h2.cons₂ d, ?_, ?_⟩
      · rw [List.pairwise_cons]
        refine ⟨?_, h3⟩
        intro x hx
        exact h4 x hx d (by simp)
      · intro x hx a ha
        rcases List.mem_cons.1 hx with hx1 | hx1
        · rw [hx1]
          exact hfresh a ha
        · exact h4 x hx1 a (by simp [ha])

theorem mem_insertMany (store docs : List ProductDoc) (d : ProductDoc)
    (h : d ∈ insertMany store docs) : d ∈ store ∨ d ∈ docs := by
  obtain ⟨l, h1, h2, _, _⟩ := insertMany_eq_append store docs
  rw [h1, List.mem_append] at h
  rcases h with h | h
  · exact Or.inl h
  · exact Or.inr (h2.subset h)

/-- An unordered insert of valid documents with fresh, pairwise distinct ids
appends them all. -/
theorem insertMany_of_fresh (store docs : List ProductDoc)
    (hvalid : ∀ d ∈ docs, validDoc d = true)
    (hdistinct : docs.Pairwise (fun a b => a.id ≠ b.id))
    (hfresh : ∀ d ∈ docs, ∀ a ∈ store, a.id ≠ d.id) :
    insertMany store docs = store ++ docs := by
  induction docs generalizing store with
  | nil => simp [insertMany]
  | cons d docs ih =>
    rw [insertMany_cons]
    rw [List.pairwise_cons] at hdistinct
    have h1 : insertOne store d = store ++ [d] := by
      unfold insertOne
      rw [if_pos]
      rw [Bool.and_eq_true]
      refine ⟨hvalid d (List.mem_cons_self _ _), ?_⟩
      simp only [Bool.not_eq_true', List.any_eq_false, decide_eq_true_eq]
      intro a ha
      exact hfresh d (List.mem_cons_self _ _) a ha
    rw [h1, ih (store ++ [d]) (fun x hx => hvalid x (List.mem_cons_of_mem _ hx)) hdistinct.2]
    · simp
    · intro x hx a ha
      rcases List.mem_append.1 ha with ha1 | ha1
      · exact hfresh x (List.mem_cons_of_mem _ hx) a ha1
      · rw [List.mem_singleton.1 ha1]
        exact hdistinct.1 x hx

theorem any_id_docRecord (s : List ProductDoc) (n : ℕ) :
    s.any (fun e => e.id = n) = (s.map docRecord).any (fun p => p.id = n) := by
  induction s with
  | nil => rfl
  | cons d s ih =>
    simp only [List.any_cons, List.map_cons, ih]
    rfl

theorem insertOne_map_congr (s1 s2 : List ProductDoc) (d1 d2 : ProductDoc)
    (hs : s1.map docRecord = s2.map docRecord) (hd : docRecord d1 = docRecord d2) :
    (insertOne s1 d1).map docRecord = (insertOne s2 d2).map docRecord := by
  have hid : d1.id = d2.id := congrArg SavedProduct.id hd
  have hvalid : validDoc d1 = validDoc d2 := by
    have e1 : d1.platform = d2.platform := congrArg SavedProduct.platform hd
    have e2 : d1.name = d2.name := congrArg SavedProduct.name hd
    have e3 : d1.searchQuery = d2.searchQuery := congrArg SavedProduct.searchQuery hd
    have e4 : d1.searchPlatforms = d2.searchPlatforms := congrArg SavedProduct.searchPlatforms hd
    unfold validDoc
    rw [e1, e2, e3, e4]
  have hany : s1.any (fun e => e.id = d1.id) = s2.any (fun e => e.id = d2.id) := by
    rw [any_id_docRecord s1 d1.id, any_id_docRecord s2 d2.id, hs, hid]
  unfold insertOne
  rw [hvalid, hany]
  split
  · rw [List.map_append, List.map_append, hs]
    simp [hd]
  · exact hs

/-- What an unordered insert does to the records does not depend on the
stamps of the documents. -/
theorem insertMany_map_congr (s1 s2 docs1 docs2 : List ProductDoc)
    (hs : s1.map docRecord = s2.map docRecord)
    (hd : docs1.map docRecord = docs2.map docRecord) :
    (insertMany s1 docs1).map docRecord = (insertMany s2 docs2).map docRecord := by
  induction docs1 generalizing s1 s2 docs2 with
  | nil =>
    cases docs2 with
    | nil => exact hs
    | cons d2 docs2 => simp at hd
  | cons d1 docs1 ih =>
    cases docs2 with
    | nil => simp at hd
    | cons d2 docs2 =>
      simp only [List.map_cons, List.cons.injEq] at hd
      rw [insertMany_cons, insertMany_cons]
      exact ih _ _ _ (insertOne_map_congr s1 s2 d1 d2 hs hd.1) hd.2

theorem map_docRecord_mapIndexFrom (stamp : ℕ → ℤ) (toSave : List SavedProduct) (i : ℕ) :
    (mapIndexFrom (fun p k => toDoc p (stamp k)) toSave i).map docRecord = toSave := by
  induction toSave generalizing i with
  | nil => rfl
  | cons p ps ih =>
    simp only [mapIndexFrom, List.map_cons, ih]
    rfl

theorem map_docRecord_stampedDocs (w : World) (slot : ℕ) (toSave : List SavedProduct) :
    (stampedDocs w slot toSave).map docRecord = toSave :=
  map_docRecord_mapIndexFrom (w.stamp slot) toSave 0

theorem matchesKey_docRecord (query platformsString : String) (d : ProductDoc) :
    matchesKey query platformsString d
      = (decide ((docRecord d).searchQuery = query) &&
          decide ((docRecord d).searchPlatforms = platformsString)) := rfl

theorem productsToSave_key (products : List RawProduct) (query platformsString : String)
    (startId step : ℕ) :
    ∀ p ∈ productsToSave products query platformsString startId step,
      p.searchQuery = toLowerCase query ∧ p.searchPlatforms = platformsString := by
  intro p hp
  rw [mem_productsToSave] at hp
  obtain ⟨_, _, _, hreq, _⟩ := hp
  rw [hreq]
  exact ⟨rfl, rfl⟩

theorem stampedDocs_key (w : World) (slot : ℕ) (products : List RawProduct)
    (query platformsString : String) (startId step : ℕ) :
    ∀ d ∈ stampedDocs w slot (productsToSave products query platformsString startId step),
      matchesKey (toLowerCase query) platformsString d = true := by
  intro d hd
  have hmem : docRecord d ∈ (stampedDocs w slot
      (productsToSave products query platformsString startId step)).map docRecord :=
    List.mem_map_of_mem _ hd
  rw [map_docRecord_stampedDocs] at hmem
  obtain ⟨h1, h2⟩ := productsToSave_key _ _ _ _ _ _ hmem
  rw [matchesKey_docRecord, h1, h2]
  simp

/-- The collection after `saveProducts`, path by path. -/
theorem saveProducts_store (w : World) (slot : ℕ) (store : List ProductDoc)
    (products : List RawProduct) (query platformsString : String) (startId step : ℕ) :
    (saveProducts w slot store products query platformsString startId step).store =
      if productsToSave products query platformsString startId step = [] then store
      else if w.deleteFails slot = true then store
      else if w.insertFails slot = true then
        deleteMany store (toLowerCase query) platformsString
      else insertMany (deleteMany store (toLowerCase query) platformsString)
        (stampedDocs w slot (productsToSave products query platformsString startId step)) := by
  unfold saveProducts
  simp only [List.isEmpty_iff]
  split
  · rfl
  · split
    · rfl
    · split <;> rfl

theorem deleteMany_append (s1 s2 : List ProductDoc) (query platformsString : String) :
    deleteMany (s1 ++ s2) query platformsString
      = deleteMany s1 query platformsString ++ deleteMany s2 query platformsString := by
  unfold deleteMany
  exact List.filter_append _ _

theorem deleteMany_deleteMany (store : List ProductDoc) (query platformsString : String) :
    deleteMany (deleteMany store query platformsString) query platformsString
      = deleteMany store query platformsString := by
  unfold deleteMany
  rw [List.filter_filter]
  congr 1
  funext d
  simp

theorem deleteMany_of_all_match (l : List ProductDoc) (query platformsString : String)
    (h : ∀ d ∈ l, matchesKey query platformsString d = true) :
    deleteMany l query platformsString = [] := by
  unfold deleteMany
  rw [List.filter_eq_nil_iff]
  intro d hd
  simp [h d hd]

theorem scopeOf_deleteMany (store : List ProductDoc) (query platformsString : String) :
    scopeOf (deleteMany store query platformsString) query platformsString = [] := by
  unfold scopeOf deleteMany
  rw [List.filter_filter, List.filter_eq_nil_iff]
  intro d _
  simp

theorem scopeOf_append_of_all_match (store l : List ProductDoc) (query platformsString : String)
    (h : ∀ d ∈ l, matchesKey query platformsString d = true) :
    scopeOf (deleteMany store query platformsString ++ l) query platformsString = l := by
  have h1 := scopeOf_deleteMany store query platformsString
  unfold scopeOf at h1 ⊢
  rw [List.filter_append, h1, List.nil_append, List.filter_eq_self]
  exact h

/-- The collection after a `saveProducts` whose writes succeed: the documents
of the other keys, then some of the new documents. -/
theorem saveProducts_store_ok (w : World) (slot : ℕ) (store : List ProductDoc)
    (products : List RawProduct) (query platformsString : String) (startId step : ℕ)
    (hne : productsToSave products query platformsString startId step ≠ [])
    (hd : w.deleteFails slot = false) (hi : w.insertFails slot = false) :
    ∃ l, (saveProducts w slot store products query platformsString startId step).store
        = deleteMany store (toLowerCase query) platformsString ++ l ∧
      l.Sublist (stampedDocs w slot (productsToSave products query platformsString startId step)) ∧
      l.Pairwise (fun a b => a.id ≠ b.id) ∧
      (∀ d ∈ l, matchesKey (toLowerCase query) platformsString d = true) ∧
      (saveProducts w slot store products query platformsString startId step).store
        = insertMany (deleteMany store (toLowerCase query) platformsString)
          (stampedDocs w slot (productsToSave products query platformsString startId step)) := by
  rw [saveProducts_store, if_neg hne, hd, hi]
  simp only [Bool.false_eq_true, if_false]
  obtain ⟨l, h1, h2, h3, _⟩ := insertMany_eq_append
    (deleteMany store (toLowerCase query) platformsString)
    (stampedDocs w slot (productsToSave products query platformsString startId step))
  exact ⟨l, h1, h2, h3, fun d hd2 => stampedDocs_key w slot products query platformsString
    startId step d (h2.subset hd2), trivial⟩

theorem mapIndexFrom_ids_increasing (products : List RawProduct) (query platformsString : String)
    (startId step : ℕ) (hstep : 0 < step) (i : ℕ) :
    (mapIndexFrom (assembleOne query platformsString startId step) products i).Pairwise
      (fun a b => a.id < b.id) := by
  induction products generalizing i with
  | nil => exact List.Pairwise.nil
  | cons x xs ih =>
    show (_ :: mapIndexFrom _ xs (i + 1)).Pairwise _
    rw [List.pairwise_cons]
    refine ⟨?_, ih (i + 1)⟩
    intro b hb
    rw [mem_mapIndexFrom] at hb
    obtain ⟨k, a, _, hbeq⟩ := hb
    rw [hbeq]
    show startId + i * step < startId + (i + 1 + k) * step
    have : i * step < (i + 1 + k) * step := Nat.mul_lt_mul_of_pos_right (by omega) hstep
    omega

theorem productsToSave_ids_distinct (products : List RawProduct) (query platformsString : String)
    (startId step : ℕ) (hstep : 0 < step) :
    (productsToSave products query platformsString startId step).Pairwise
      (fun a b => a.id ≠ b.id) := by
  unfold productsToSave
  refine List.Pairwise.sublist (List.filter_sublist _) ?_
  exact (mapIndexFrom_ids_increasing products query platformsString startId step hstep 0).imp
    (fun h => Nat.ne_of_lt h)

/-- C14 as stated fails: with the id 1 held by a document of another search,
the store step for the single record `A` of the search `phone`, run once or
twice, leaves the scope of the key empty, not holding that record. -/
theorem taken_id_leaves_scope_incomplete :
    productsToSave [rawA] "phone" "amazon,flipkart" 1 2
      = [assembleOne "phone" "amazon,flipkart" 1 2 rawA 0] ∧
    scopeOf (saveProducts (bothReturn 1000000) 1 [docLaptop] [rawA]
      "phone" "amazon,flipkart" 1 2).store "phone" "amazon,flipkart" = [] ∧
    scopeOf (saveProducts (bothReturn 1000000) 1
      (saveProducts (bothReturn 1000000) 1 [docLaptop] [rawA]
        "phone" "amazon,flipkart" 1 2).store [rawA]
      "phone" "amazon,flipkart" 1 2).store "phone" "amazon,flipkart" = [] := by
  decide!

/-- C14, amended: when the database answers, running the store step twice
with the same key and records leaves the records that running it once leaves
(the stamps apart). When the record list is not empty, the scope of the key
then holds only records of the list, in its order, with pairwise distinct ids;
and it holds exactly the list when, besides, the documents pass validation
and their ids are pairwise distinct and not held under another key. -/
theorem store_step_twice (w1 w2 : World) (slot : ℕ) (store : List ProductDoc)
    (products : List RawProduct) (query platformsString : String) (startId step : ℕ)
    (hd1 : w1.deleteFails slot = false) (hi1 : w1.insertFails slot = false)
    (hd2 : w2.deleteFails slot = false) (hi2 : w2.insertFails slot = false) :
    ((saveProducts w2 slot
        (saveProducts w1 slot store products query platformsString startId step).store
        products query platformsString startId step).store).map docRecord
      = ((saveProducts w1 slot store products query platformsString startId step).store).map
        docRecord ∧
    (productsToSave products query platformsString startId step ≠ [] →
      ((scopeOf (saveProducts w1 slot store products query platformsString startId step).store
          (toLowerCase query) platformsString).map docRecord).Sublist
        (productsToSave products query platformsString startId step) ∧
      (scopeOf (saveProducts w1 slot store products query platformsString startId step).store
          (toLowerCase query) platformsString).Pairwise (fun a b => a.id ≠ b.id)) ∧
    (productsToSave products query platformsString startId step ≠ [] →
      (∀ raw ∈ products, raw.platform ≠ "") → query ≠ "" → platformsString ≠ "" → 0 < step →
      (∀ d ∈ store, matchesKey (toLowerCase query) platformsString d = false →
        ∀ p ∈ productsToSave products query platformsString startId step, d.id ≠ p.id) →
      (scopeOf (saveProducts w1 slot store products query platformsString startId step).store
          (toLowerCase query) platformsString).map docRecord
        = productsToSave products query platformsString startId step) := by
  refine ⟨?_, ?_, ?_⟩
  · by_cases hne : productsToSave products query platformsString startId step = []
    · rw [saveProducts_store w2, saveProducts_store w1, if_pos hne, if_pos hne]
    · obtain ⟨l, h1, h2, _, h4, h5⟩ := saveProducts_store_ok w1 slot store products query
        platformsString startId step hne hd1 hi1
      obtain ⟨_, _, _, _, _, h6⟩ := saveProducts_store_ok w2 slot
        (saveProducts w1 slot store products query platformsString startId step).store
        products query platformsString startId step hne hd2 hi2
      rw [h6]
      have hdel : deleteMany
          (saveProducts w1 slot store products query platformsString startId step).store
          (toLowerCase query) platformsString
          = deleteMany store (toLowerCase query) platformsString := by
        rw [h1, deleteMany_append, deleteMany_deleteMany, deleteMany_of_all_match l _ _ h4,
          List.append_nil]
      rw [hdel, h5]
      apply insertMany_map_congr _ _ _ _ rfl
      rw [map_docRecord_stampedDocs, map_docRecord_stampedDocs]
  · intro hne
    obtain ⟨l, h1, h2, h3, h4, _⟩ := saveProducts_store_ok w1 slot store products query
      platformsString startId step hne hd1 hi1
    rw [h1, scopeOf_append_of_all_match _ _ _ _ h4]
    refine ⟨?_, h3⟩
    have := h2.map docRecord
    rw [map_docRecord_stampedDocs] at this
    exact this
  · intro hne hplat hq hp hstep hfree
    obtain ⟨l, h1, _, _, h4, h5⟩ := saveProducts_store_ok w1 slot store products query
      platformsString startId step hne hd1 hi1
    have hmemrec : ∀ d ∈ stampedDocs w1 slot
        (productsToSave products query platformsString startId step),
        docRecord d ∈ productsToSave products query platformsString startId step := by
      intro d hd
      have := List.mem_map_of_mem docRecord hd
      rw [map_docRecord_stampedDocs] at this
      exact this
    have hvalid : ∀ d ∈ stampedDocs w1 slot
        (productsToSave products query platformsString startId step), validDoc d = true := by
      intro d hd
      have hrec := hmemrec d hd
      rw [mem_productsToSave] at hrec
      obtain ⟨i, raw, hi, hreq, hkeep⟩ := hrec
      have e1 : d.platform = raw.platform := by
        have := congrArg SavedProduct.platform hreq
        exact this
      have e2 : d.searchQuery = toLowerCase query := by
        have := congrArg SavedProduct.searchQuery hreq
        exact this
      have e3 : d.searchPlatforms = platformsString := by
        have := congrArg SavedProduct.searchPlatforms hreq
        exact this
      have e4 : truthyStr d.name = true := by
        unfold keepSaved at hkeep
        rw [Bool.and_eq_true] at hkeep
        exact hkeep.2
      unfold validDoc
      rw [e1, e2, e3, e4, (truthyStr_iff _).2 (hplat raw (List.getElem?_mem hi)),
        (truthyStr_iff _).2 hp]
      have : truthyStr (toLowerCase query) = true := by
        rw [truthyStr_iff]
        intro h
        exact hq ((toLowerCase_eq_empty query).1 h)
      rw [this]
      rfl
    have hdistinct : (stampedDocs w1 slot
        (productsToSave products query platformsString startId step)).Pairwise
        (fun a b => a.id ≠ b.id) := by
      have := productsToSave_ids_distinct products query platformsString startId step hstep
      rw [← map_docRecord_stampedDocs w1 slot
        (productsToSave products query platformsString startId step), List.pairwise_map] at this
      exact this
    have hfresh : ∀ d ∈ stampedDocs w1 slot
        (productsToSave products query platformsString startId step),
        ∀ a ∈ deleteMany store (toLowerCase query) platformsString, a.id ≠ d.id := by
      intro d hd a ha
      rw [mem_deleteMany] at ha
      exact hfree a ha.1 ha.2 (docRecord d) (hmemrec d hd)
    rw [h5, insertMany_of_fresh _ _ hvalid hdistinct hfresh,
      scopeOf_append_of_all_match _ _ _ _
        (stampedDocs_key w1 slot products query platformsString startId step),
      map_docRecord_stampedDocs]

/-- C14, amended, at the prior set `[B]` of the key and the new record `A`:
the database answers, the list is not empty, valid and with a free id, and the
scope of the key then holds exactly `A`. -/
theorem store_step_twice_witness :
    productsToSave [rawA] "phone" "amazon,flipkart" 1 2 ≠ [] ∧
    (∀ d ∈ [docB 5], matchesKey (toLowerCase "phone") "amazon,flipkart" d = false →
      ∀ p ∈ productsToSave [rawA] "phone" "amazon,flipkart" 1 2, d.id ≠ p.id) ∧
    (scopeOf (saveProducts (bothReturn 1000000) 1 [docB 5] [rawA]
        "phone" "amazon,flipkart" 1 2).store (toLowerCase "phone") "amazon,flipkart").map
      docRecord = productsToSave [rawA] "phone" "amazon,flipkart" 1 2 :=
  ⟨by decide!, by decide!,
    (store_step_twice (bothReturn 1000000) (bothReturn 1000000) 1 [docB 5] [rawA]
      "phone" "amazon,flipkart" 1 2 rfl rfl rfl rfl).2.2 (by decide!) (by decide!) (by decide)
      (by decide) (by decide) (by decide!)⟩

/-- C15 as stated fails: when the new raw list is empty, or holds only a
record that the filter drops, `saveProducts` returns before the delete and the
prior document of the key remains in its scope. -/
theorem empty_batch_keeps_prior_set :
    scopeOf (saveProducts (bothReturn 1000000) 1 [docA 0] []
      "phone" "amazon,flipkart" 1 2).store "phone" "amazon,flipkart" = [docA 0] ∧
    scopeOf (saveProducts (bothReturn 1000000) 1 [docA 0] [rawNameless]
      "phone" "amazon,flipkart" 1 2).store "phone" "amazon,flipkart" = [docA 0] := by
  decide!

/-- C15, amended: when the new raw list assembles at least one record and the
delete succeeds, every document in the scope of the key after `saveProducts`
is one of the documents built from the new records: no document of the prior
set is left beside them. -/
theorem scope_holds_new_documents_only (w : World) (slot : ℕ) (store : List ProductDoc)
    (products : List RawProduct) (query platformsString : String) (startId step : ℕ)
    (hne : productsToSave products query platformsString startId step ≠ [])
    (hd : w.deleteFails slot = false) :
    ∀ d ∈ scopeOf (saveProducts w slot store products query platformsString startId step).store
        (toLowerCase query) platformsString,
      d ∈ stampedDocs w slot (productsToSave products query platformsString startId step) := by
  cases hi : w.insertFails slot with
  | true =>
    rw [saveProducts_store, if_neg hne, hd, hi]
    simp only [Bool.false_eq_true, if_false, if_true, scopeOf_deleteMany]
    intro d hd2
    simp at hd2
  | false =>
    obtain ⟨l, h1, h2, _, h4, _⟩ := saveProducts_store_ok w slot store products query
      platformsString startId step hne hd hi
    rw [h1, scopeOf_append_of_all_match _ _ _ _ h4]
    intro d hd2
    exact h2.subset hd2

/-- C15, amended, at the prior set `[B]` of the key and the new record `A`:
the scope afterwards holds the document of `A` only. -/
theorem scope_holds_new_documents_only_witness :
    productsToSave [rawA] "phone" "amazon,flipkart" 1 2 ≠ [] ∧
    scopeOf (saveProducts (bothReturn 1000000) 1 [docB 5] [rawA]
        "phone" "amazon,flipkart" 1 2).store (toLowerCase "phone") "amazon,flipkart"
      = [docA 1000000] ∧
    ∀ d ∈ scopeOf (saveProducts (bothReturn 1000000) 1 [docB 5] [rawA]
        "phone" "amazon,flipkart" 1 2).store (toLowerCase "phone") "amazon,flipkart",
      d ∈ stampedDocs (bothReturn 1000000) 1
        (productsToSave [rawA] "phone" "amazon,flipkart" 1 2) :=
  ⟨by decide!, by decide!,
    scope_holds_new_documents_only (bothReturn 1000000) 1 [docB 5] [rawA]
      "phone" "amazon,flipkart" 1 2 (by decide!) rfl⟩

theorem mem_saveProducts_store (w : World) (slot : ℕ) (store : List ProductDoc)
    (products : List RawProduct) (query platformsString : String) (startId step : ℕ)
    (d : ProductDoc)
    (h : d ∈ (saveProducts w slot store products query platformsString startId step).store) :
    d ∈ store ∨
      d ∈ stampedDocs w slot (productsToSave products query platformsString startId step) := by
  rw [saveProducts_store] at h
  split at h
  · exact Or.inl h
  · split at h
    · exact Or.inl h
    · split at h
      · exact Or.inl ((mem_deleteMany _ _ _ _).1 h).1
      · rcases mem_insertMany _ _ _ h with h1 | h1
        · exact Or.inl ((mem_deleteMany _ _ _ _).1 h1).1
        · exact Or.inr h1

theorem mem_scrapeSlot_store (w : World) (slot : ℕ) (platform : Option String)
    (query platformsString : String) (store : List ProductDoc) (d : ProductDoc)
    (h : d ∈ (scrapeSlot w slot platform query platformsString store).2.1) :
    d ∈ store ∨ matchesKey (toLowerCase query) platformsString d = true := by
  unfold scrapeSlot at h
  split at h
  · exact Or.inl h
  · exact Or.inl h
  · split at h
    · exact Or.inl h
    · rcases mem_saveProducts_store _ _ _ _ _ _ _ _ _ h with h1 | h1
      · exact Or.inl h1
      · exact Or.inr (stampedDocs_key _ _ _ _ _ _ _ _ h1)

/-- The collection after the handler is the collection before it, or the one
the first scraping block leaves, or the one the second leaves. -/
theorem apiSearch_store_cases (w : World) (q platformsString : String)
    (store : List ProductDoc) :
    (apiSearch w ⟨some q, some platformsString⟩ store).store = store ∨
    (apiSearch w ⟨some q, some platformsString⟩ store).store
      = (scrapeSlot w 1 (resolvePlatforms platformsString)[0]? (toLowerCase q)
          platformsString store).2.1 ∨
    (apiSearch w ⟨some q, some platformsString⟩ store).store
      = (scrapeSlot w 2 (resolvePlatforms platformsString)[1]? (toLowerCase q) platformsString
          (scrapeSlot w 1 (resolvePlatforms platformsString)[0]? (toLowerCase q)
            platformsString store).2.1).2.1 := by
  simp only [apiSearch, Option.map_some']
  split
  · exact Or.inl rfl
  · split
    · exact Or.inl rfl
    · split
      · split <;> exact Or.inl rfl
      · rcases hs1 : scrapeSlot w 1 (resolvePlatforms platformsString)[0]? (toLowerCase q)
          platformsString store with ⟨o1, store1, trace1⟩
        cases o1 with
        | none => exact Or.inr (Or.inl rfl)
        | some savedP1 =>
          simp only []
          rcases hs2 : scrapeSlot w 2 (resolvePlatforms platformsString)[1]? (toLowerCase q)
            platformsString store1 with ⟨o2, store2, trace2⟩
          cases o2 <;> exact Or.inr (Or.inr rfl)

theorem mem_apiSearch_store (w : World) (q platformsString : String)
    (store : List ProductDoc) (d : ProductDoc)
    (h : d ∈ (apiSearch w ⟨some q, some platformsString⟩ store).store) :
    d ∈ store ∨ matchesKey (toLowerCase (toLowerCase q)) platformsString d = true := by
  rcases apiSearch_store_cases w q platformsString store with e | e | e
  · rw [e] at h
    exact Or.inl h
  · rw [e] at h
    exact mem_scrapeSlot_store _ _ _ _ _ _ _ h
  · rw [e] at h
    rcases mem_scrapeSlot_store _ _ _ _ _ _ _ h with h1 | h1
    · exact mem_scrapeSlot_store _ _ _ _ _ _ _ h1
    · exact Or.inr h1

/-- C12 as stated fails: after the cold search for `phone` on
`amazon,flipkart`, the lookup one second later under `flipkart,amazon` finds
nothing and the request scrapes again, while the lookup under
`amazon,flipkart` finds the stored document. -/
theorem swapped_platforms_miss_the_cache :
    recentResult (apiSearch (bothReturn 1000000) phoneRequest []).store
      "phone" "flipkart,amazon" 1001000 = none ∧
    recentResult (apiSearch (bothReturn 1000000) phoneRequest []).store
      "phone" "amazon,flipkart" 1001000 = some (docB 1000000) ∧
    Event.scrape 1 "flipkart" ∈
      (apiSearch (bothReturn 1001000) ⟨some "phone", some "flipkart,amazon"⟩
        (apiSearch (bothReturn 1000000) phoneRequest []).store).trace ∧
    Event.find ∉
      (apiSearch (bothReturn 1001000) ⟨some "phone", some "flipkart,amazon"⟩
        (apiSearch (bothReturn 1000000) phoneRequest []).store).trace := by
  decide!

/-- C12, amended: the `searchPlatforms` key of a search is its `platforms`
parameter as received, character for character: every document a search adds
carries that string, and a lookup under any other string, be it the same two
platforms in the other order, in another case or with spaces, finds none of
the documents stored by that search. -/
theorem platforms_key_is_the_parameter (w : World) (q platformsString : String) :
    (∀ (store : List ProductDoc) (d : ProductDoc),
      d ∈ (apiSearch w ⟨some q, some platformsString⟩ store).store →
      d ∈ store ∨ d.searchPlatforms = platformsString) ∧
    (∀ (other query2 : String) (now : ℤ), other ≠ platformsString →
      recentResult (apiSearch w ⟨some q, some platformsString⟩ []).store query2 other now
        = none) := by
  have hkey : ∀ (store : List ProductDoc) (d : ProductDoc),
      d ∈ (apiSearch w ⟨some q, some platformsString⟩ store).store →
      d ∈ store ∨ d.searchPlatforms = platformsString := by
    intro store d hd
    rcases mem_apiSearch_store w q platformsString store d hd with h | h
    · exact Or.inl h
    · right
      unfold matchesKey at h
      rw [Bool.and_eq_true] at h
      exact of_decide_eq_true h.2
  refine ⟨hkey, ?_⟩
  intro other query2 now hne
  rw [← Option.not_isSome_iff_eq_none]
  intro hsome
  unfold recentResult at hsome
  rw [head?_isSome_iff, ne_eq, insertionSort_eq_nil_iff] at hsome
  obtain ⟨d, l, hl⟩ := List.exists_cons_of_ne_nil hsome
  have hd : d ∈ (apiSearch w ⟨some q, some platformsString⟩ []).store.filter
      (fun d => matchesKey query2 other d && decide (now - cacheDurationMs ≤ d.searchedAt)) := by
    rw [hl]
    exact List.mem_cons_self _ _
  rw [List.mem_filter] at hd
  obtain ⟨hmem, hcond⟩ := hd
  rcases hkey [] d hmem with h | h
  · simp at h
  · simp only [matchesKey, Bool.and_eq_true, decide_eq_true_eq] at hcond
    exact hne (hcond.1.2.symm.trans h)

/-- C12, amended, at the search for `phone` on `amazon,flipkart`: a lookup
under `flipkart,amazon` finds nothing. -/
theorem platforms_key_is_the_parameter_witness :
    "flipkart,amazon" ≠ "amazon,flipkart" ∧
    recentResult (apiSearch (bothReturn 1000000) ⟨some "phone", some "amazon,flipkart"⟩ []).store
      "phone" "flipkart,amazon" 1001000 = none :=
  ⟨by decide,
    (platforms_key_is_the_parameter (bothReturn 1000000) "phone" "amazon,flipkart").2
      "flipkart,amazon" "phone" 1001000 (by decide)⟩

/-! ## Lemmas on the home feed -/

theorem randomPlatformIndex_cases (w : HomeWorld) :
    randomPlatformIndex w = 0 ∨ randomPlatformIndex w = 1 := by
  unfold randomPlatformIndex
  have hlen : ((homePlatforms.length : ℕ) : ℚ) = 2 := by
    simp [homePlatforms]
  rw [hlen]
  have h0 : (0 : ℤ) ≤ Rat.floor (w.random * 2) := by
    rw [Rat.le_floor]
    have := w.random_nonneg
    push_cast
    linarith
  have h2 : ¬ ((2 : ℤ) ≤ Rat.floor (w.random * 2)) := by
    rw [Rat.le_floor]
    have := w.random_lt_one
    push_cast
    linarith
  omega

theorem scraperMap_homePlatforms (w : HomeWorld) :
    ∃ name, (name = "amazon" ∨ name = "flipkart") ∧
      scraperMap homePlatforms[randomPlatformIndex w]? = MapEntry.scraper name := by
  rcases randomPlatformIndex_cases w with h | h
  · rw [h]
    exact ⟨"amazon", Or.inl rfl, by decide⟩
  · rw [h]
    exact ⟨"flipkart", Or.inr rfl, by decide⟩

theorem homeLoop_categories (w : HomeWorld) (name : String) (categories : List String)
    (homeProducts : List HomeSection) :
    (homeLoop w name categories homeProducts).map HomeSection.category
      = homeProducts.map HomeSection.category ++
        categories.filter (fun c => !(w.scrape name c).isThrows) := by
  induction categories generalizing homeProducts with
  | nil => simp [homeLoop]
  | cons c rest ih =>
    unfold homeLoop
    cases hs : w.scrape name c with
    | throws =>
      simp only [ih, List.filter_cons, hs, AdapterResult.isThrows, Bool.not_true,
        Bool.false_eq_true, if_false]
    | returns categoryProducts =>
      simp only [ih, List.filter_cons, hs, AdapterResult.isThrows, Bool.not_false, if_true,
        List.map_append, List.map_cons, List.map_nil, List.append_assoc, List.singleton_append]

theorem homeLoop_platform (w : HomeWorld) (name : String) (categories : List String)
    (homeProducts : List HomeSection) (h : ∀ s ∈ homeProducts, s.platform = name) :
    ∀ s ∈ homeLoop w name categories homeProducts, s.platform = name := by
  induction categories generalizing homeProducts with
  | nil => simpa [homeLoop] using h
  | cons c rest ih =>
    unfold homeLoop
    cases hs : w.scrape name c with
    | throws => exact ih homeProducts h
    | returns categoryProducts =>
      apply ih
      intro s hs2
      rcases List.mem_append.1 hs2 with h1 | h1
      · exact h s h1
      · rw [List.mem_singleton.1 h1]

/-- C18: whatever the set of categories whose adapter call rejects,
`/api/products/home` succeeds and its sections are, in the order of the fixed
category list, those of the categories whose call did not reject, one each,
all for the platform drawn from the pool; when the call rejects for `laptops`
only, there are exactly 5 sections and none is `laptops`. -/
theorem home_feed_skips_failed_categories (w : HomeWorld) :
    ∃ name sections, (name = "amazon" ∨ name = "flipkart") ∧
      apiProductsHome w = HomeResponse.ok sections ∧
      sections.map HomeSection.category
        = homeCategories.filter (fun c => !(w.scrape name c).isThrows) ∧
      (∀ s ∈ sections, s.platform = name) ∧
      ((∀ c ∈ homeCategories, ((w.scrape name c).isThrows = true ↔ c = "laptops")) →
        sections.length = 5 ∧
        sections.map HomeSection.category
          = ["smartphones", "headphones", "tshirts", "bags", "shoes"]) := by
  obtain ⟨name, hname, hmap⟩ := scraperMap_homePlatforms w
  have hcat := homeLoop_categories w name homeCategories []
  rw [List.map_nil, List.nil_append] at hcat
  refine ⟨name, homeLoop w name homeCategories [], hname, ?_, hcat, ?_, ?_⟩
  · unfold apiProductsHome
    rw [hmap]
  · exact homeLoop_platform w name homeCategories [] (by simp)
  · intro hthrows
    have hfilter : homeCategories.filter (fun c => !(w.scrape name c).isThrows)
        = homeCategories.filter (fun c => !decide (c = "laptops")) := by
      apply List.filter_congr
      intro c hc
      have := hthrows c hc
      by_cases hl : c = "laptops"
      · have ht : (w.scrape name c).isThrows = true := this.2 hl
        rw [ht]
        simp [hl]
      · have hf : (w.scrape name c).isThrows = false := by
          cases hb : (w.scrape name c).isThrows with
          | true => exact absurd (this.1 hb) hl
          | false => rfl
        simp [hl, hf]
    have hlist : homeCategories.filter (fun c => !decide (c = "laptops"))
        = ["smartphones", "headphones", "tshirts", "bags", "shoes"] := by decide
    rw [hfilter, hlist] at hcat
    refine ⟨?_, hcat⟩
    have := congrArg List.length hcat
    simpa using this

/-- C18 at a world where the adapter rejects for `laptops` only. -/
theorem home_feed_skips_failed_categories_witness :
    (∀ c ∈ homeCategories,
      (((laptopsThrow []).scrape "amazon" c).isThrows = true ↔ c = "laptops")) ∧
    apiProductsHome (laptopsThrow []) = HomeResponse.ok
      [⟨"smartphones", "amazon", []⟩, ⟨"headphones", "amazon", []⟩, ⟨"tshirts", "amazon", []⟩,
        ⟨"bags", "amazon", []⟩, ⟨"shoes", "amazon", []⟩] ∧
    ∃ name sections, (name = "amazon" ∨ name = "flipkart") ∧
      apiProductsHome (laptopsThrow []) = HomeResponse.ok sections ∧
      sections.map HomeSection.category
        = homeCategories.filter (fun c => !((laptopsThrow []).scrape name c).isThrows) ∧
      (∀ s ∈ sections, s.platform = name) ∧
      ((∀ c ∈ homeCategories,
          (((laptopsThrow []).scrape name c).isThrows = true ↔ c = "laptops")) →
        sections.length = 5 ∧
        sections.map HomeSection.category
          = ["smartphones", "headphones", "tshirts", "bags", "shoes"]) :=
  ⟨by decide!, by decide!, home_feed_skips_failed_categories (laptopsThrow [])⟩

/-- C19: when the adapter returns a listing whose price text is not a number
beside one priced 5, the section of every category that succeeded holds both,
the first with the price `NaN`, and in neither order is that list in
ascending order of price; and of six listings priced 3, four times `abc`, and
1, the five kept are the one priced 3 and the four `NaN`, the one priced 1
being left out. -/
theorem unparsed_price_breaks_price_order :
    apiProductsHome (laptopsThrow [rawUnpriced, rawPriced "Y" "5"]) = HomeResponse.ok
      (["smartphones", "headphones", "tshirts", "bags", "shoes"].map (fun c =>
        HomeSection.mk c "amazon"
          [⟨"Amazon", "Laptop X", JSNumber.nan, none, some "x"⟩,
            ⟨"Amazon", "Y", JSNumber.fin 5, none, some "y"⟩])) ∧
    ¬ priceAscending
      [⟨"Amazon", "Laptop X", JSNumber.nan, none, some "x"⟩,
        ⟨"Amazon", "Y", JSNumber.fin 5, none, some "y"⟩] ∧
    ¬ priceAscending
      [⟨"Amazon", "Y", JSNumber.fin 5, none, some "y"⟩,
        ⟨"Amazon", "Laptop X", JSNumber.nan, none, some "x"⟩] ∧
    (topFive [rawPriced "a" "3", rawUnpriced, rawUnpriced, rawUnpriced, rawUnpriced,
        rawPriced "b" "1"]).map HomeProduct.price
      = [JSNumber.fin 3, JSNumber.nan, JSNumber.nan, JSNumber.nan, JSNumber.nan] := by
  unfold priceAscending
  decide!

/-- C20: when the adapter returns the single listing `Laptop X` priced `abc`,
the section of every category that succeeded keeps it with the price `NaN`,
which is not greater than 0; listings priced `0` and `-5` are kept as well. -/
theorem home_feed_keeps_invalid_prices :
    apiProductsHome (laptopsThrow [rawUnpriced]) = HomeResponse.ok
      (["smartphones", "headphones", "tshirts", "bags", "shoes"].map (fun c =>
        HomeSection.mk c "amazon" [⟨"Amazon", "Laptop X", JSNumber.nan, none, some "x"⟩])) ∧
    JSNumber.nan.gtZero = false ∧
    topFive [rawPriced "Z" "0", rawPriced "N" "-5"]
      = [⟨"Amazon", "N", JSNumber.fin (-5), none, some "y"⟩,
          ⟨"Amazon", "Z", JSNumber.fin 0, none, some "y"⟩] := by
  decide!

/-! ## Lemmas on the freshness lookup -/

theorem recentResult_isSome_iff_exists (store : List ProductDoc) (query platformsString : String)
    (now : ℤ) :
    (recentResult store query platformsString now).isSome = true ↔
      ∃ d ∈ store, matchesKey query platformsString d = true ∧
        now - cacheDurationMs ≤ d.searchedAt := by
  unfold recentResult
  rw [head?_isSome_iff, ne_eq, insertionSort_eq_nil_iff, ← ne_eq]
  constructor
  · intro h
    obtain ⟨d, l, hl⟩ := List.exists_cons_of_ne_nil h
    have hd : d ∈ store.filter (fun d => matchesKey query platformsString d &&
        decide (now - cacheDurationMs ≤ d.searchedAt)) := by
      rw [hl]
      exact List.mem_cons_self _ _
    rw [List.mem_filter] at hd
    obtain ⟨hmem, hcond⟩ := hd
    rw [Bool.and_eq_true, decide_eq_true_eq] at hcond
    exact ⟨d, hmem, hcond.1, hcond.2⟩
  · rintro ⟨d, hmem, hk, ht⟩
    have hd : d ∈ store.filter (fun d => matchesKey query platformsString d &&
        decide (now - cacheDurationMs ≤ d.searchedAt)) := by
      rw [List.mem_filter]
      refine ⟨hmem, ?_⟩
      rw [Bool.and_eq_true, decide_eq_true_eq]
      exact ⟨hk, ht⟩
    exact List.ne_nil_of_mem hd

theorem matchesKey_iff (query platformsString : String) (d : ProductDoc) :
    matchesKey query platformsString d = true ↔
      d.searchQuery = query ∧ d.searchPlatforms = platformsString := by
  unfold matchesKey
  rw [Bool.and_eq_true, decide_eq_true_eq, decide_eq_true_eq]

/-- C27 as stated fails: a key whose only document is stamped exactly five
minutes before `now` is still found by the freshness lookup. -/
theorem age_of_five_minutes_is_a_hit :
    recentResult [docA (1000000 - 5 * 60 * 1000)] "phone" "amazon,flipkart" 1000000
      = some (docA (1000000 - 5 * 60 * 1000)) := by
  decide!

/-- C27, amended: a previous result set is valid while its age is at most the
TTL: for a key whose most recent document is `d`, the freshness lookup is a
hit exactly when `now - d.searchedAt` is at most 5 minutes, so it is a hit
when `d` is stamped exactly `now - 5 minutes` and a miss from one millisecond
later on. -/
theorem lookup_hit_iff_age_at_most_ttl (store : List ProductDoc)
    (query platformsString : String) (now : ℤ) (d : ProductDoc) (hd : d ∈ store)
    (hquery : d.searchQuery = query) (hplatforms : d.searchPlatforms = platformsString)
    (hrecent : ∀ e ∈ store, e.searchQuery = query → e.searchPlatforms = platformsString →
      e.searchedAt ≤ d.searchedAt) :
    ((recentResult store query platformsString now).isSome = true ↔
      now - d.searchedAt ≤ 5 * 60 * 1000) ∧
    (d.searchedAt = now - 5 * 60 * 1000 →
      (recentResult store query platformsString now).isSome = true) ∧
    (d.searchedAt < now - 5 * 60 * 1000 →
      recentResult store query platformsString now = none) := by
  have key : (recentResult store query platformsString now).isSome = true ↔
      now - d.searchedAt ≤ 5 * 60 * 1000 := by
    rw [recentResult_isSome_iff_exists]
    constructor
    · rintro ⟨e, he, hk, ht⟩
      rw [matchesKey_iff] at hk
      have := hrecent e he hk.1 hk.2
      simp only [cacheDurationMs] at ht
      omega
    · intro h
      refine ⟨d, hd, (matchesKey_iff _ _ _).2 ⟨hquery, hplatforms⟩, ?_⟩
      simp only [cacheDurationMs]
      omega
  refine ⟨key, ?_, ?_⟩
  · intro h
    rw [key]
    omega
  · intro h
    rw [← Option.not_isSome_iff_eq_none, key]
    omega

/-- C27, amended, at a document stamped exactly five minutes before `now`. -/
theorem lookup_hit_iff_age_at_most_ttl_witness :
    docA 700000 ∈ [docA 700000] ∧ (docA 700000).searchedAt = 1000000 - 5 * 60 * 1000 ∧
    (recentResult [docA 700000] "phone" "amazon,flipkart" 1000000).isSome = true :=
  ⟨List.mem_singleton.2 rfl, by decide,
    (lookup_hit_iff_age_at_most_ttl [docA 700000] "phone" "amazon,flipkart" 1000000
      (docA 700000) (List.mem_singleton.2 rfl) rfl rfl
      (fun e he _ _ => by rw [List.mem_singleton.1 he])).2.1 (by decide)⟩

/-- C23: whenever the freshness lookup of a request with non-empty `q` and
`platforms` succeeds and finds a document, `/api/search` makes the two reads
and nothing else, so no adapter is called and nothing is written, the
collection afterwards is the collection before, and, the second read
succeeding, the answer is the list of the persisted documents of the key, by
id ascending, projected. -/
theorem cache_hit_reads_only (w : World) (q platformsString : String)
    (store : List ProductDoc) (hq : q ≠ "") (hp : platformsString ≠ "")
    (hfindOne : w.findOneFails = false)
    (hhit : (recentResult store (toLowerCase q) platformsString w.now).isSome = true) :
    (apiSearch w ⟨some q, some platformsString⟩ store).trace = [Event.findOne, Event.find] ∧
    (apiSearch w ⟨some q, some platformsString⟩ store).store = store ∧
    (w.findFails = false →
      (apiSearch w ⟨some q, some platformsString⟩ store).response
        = Response.ok
          ((sortById ProductDoc.id (scopeOf store (toLowerCase q) platformsString)).map
            projectDoc)) := by
  have hq2 : truthyStr (toLowerCase q) = true := by
    rw [truthyStr_iff]
    intro h
    exact hq ((toLowerCase_eq_empty q).1 h)
  have hp2 : truthyStr platformsString = true := (truthyStr_iff platformsString).2 hp
  obtain ⟨d, hd⟩ := Option.isSome_iff_exists.1 hhit
  simp only [apiSearch, Option.map_some', hq2, hp2, hfindOne, hd, Bool.not_true, Bool.or_self,
    Bool.false_eq_true, if_false]
  refine ⟨?_, ?_, ?_⟩
  · split <;> rfl
  · split <;> rfl
  · intro hf
    simp only [hf, Bool.false_eq_true, if_false]
    rfl

/-- C23 at the search for `phone` with the fresh document `B` stored: the
answer is `B`, the trace is the two reads and the collection is unchanged. -/
theorem cache_hit_reads_only_witness :
    (recentResult [docB 1000000] (toLowerCase "phone") "amazon,flipkart"
      (bothReturn 1001000).now).isSome = true ∧
    (apiSearch (bothReturn 1001000) ⟨some "phone", some "amazon,flipkart"⟩
      [docB 1000000]).trace = [Event.findOne, Event.find] ∧
    (apiSearch (bothReturn 1001000) ⟨some "phone", some "amazon,flipkart"⟩
      [docB 1000000]).store = [docB 1000000] ∧
    (apiSearch (bothReturn 1001000) ⟨some "phone", some "amazon,flipkart"⟩
      [docB 1000000]).response = Response.ok [projectedB] :=
  ⟨by decide!,
    (cache_hit_reads_only (bothReturn 1001000) "phone" "amazon,flipkart" [docB 1000000]
      (by decide) (by decide) rfl (by decide!)).1,
    (cache_hit_reads_only (bothReturn 1001000) "phone" "amazon,flipkart" [docB 1000000]
      (by decide) (by decide) rfl (by decide!)).2.1,
    by decide!⟩

/-! ## Lemmas on the sequence of effects -/

theorem saveProducts_trace_slot (w : World) (slot : ℕ) (store : List ProductDoc)
    (products : List RawProduct) (query platformsString : String) (startId step : ℕ) :
    ∀ e ∈ (saveProducts w slot store products query platformsString startId step).trace,
      e.slot = some slot ∧ ∀ name, e ≠ Event.scrape slot name := by
  unfold saveProducts
  simp only []
  split
  · intro e he
    simp at he
  · split
    · intro e he
      rw [List.mem_singleton.1 he]
      exact ⟨rfl, fun name h => Event.noConfusion h⟩
    · split
      · intro e he
        simp only [List.mem_cons, List.mem_singleton, List.not_mem_nil, or_false] at he
        rcases he with h | h
        · rw [h]
          exact ⟨rfl, fun name h => Event.noConfusion h⟩
        · rw [h]
          exact ⟨rfl, fun name h => Event.noConfusion h⟩
      · intro e he
        simp only [List.mem_cons, List.mem_singleton, List.not_mem_nil, or_false] at he
        rcases he with h | h
        · rw [h]
          exact ⟨rfl, fun name h => Event.noConfusion h⟩
        · rw [h]
          exact ⟨rfl, fun name h => Event.noConfusion h⟩

theorem scrapeSlot_trace_slot (w : World) (slot : ℕ) (platform : Option String)
    (query platformsString : String) (store : List ProductDoc) :
    ∀ e ∈ (scrapeSlot w slot platform query platformsString store).2.2, e.slot = some slot := by
  unfold scrapeSlot
  split
  · intro e he
    simp at he
  · intro e he
    simp at he
  · split
    · intro e he
      rw [List.mem_singleton.1 he]
      rfl
    · intro e he
      rcases List.mem_cons.1 he with h | h
      · rw [h]
        rfl
      · exact (saveProducts_trace_slot _ _ _ _ _ _ _ _ e h).1

/-- The effects of the handler: the reads of the cache check, then the
effects of the first scraping block, then those of the second. -/
theorem apiSearch_trace_blocks (w : World) (req : Request) (store : List ProductDoc) :
    ∃ reads first second, (apiSearch w req store).trace = reads ++ first ++ second ∧
      (∀ e ∈ reads, e.slot = none) ∧ (∀ e ∈ first, e.slot = some 1) ∧
      (∀ e ∈ second, e.slot = some 2) := by
  rcases apiSearch_badRequest_or_valid req with hbad | ⟨q, ps, hreq, hq, hp⟩
  · exact ⟨[], [], [], by rw [(hbad w store).2.2]; rfl, by simp, by simp, by simp⟩
  · subst hreq
    simp only [apiSearch, Option.map_some']
    split
    · exact ⟨[], [], [], rfl, by simp, by simp, by simp⟩
    · split
      · exact ⟨[Event.findOne], [], [], rfl, by simp [Event.slot], by simp, by simp⟩
      · split
        · split
          · exact ⟨[Event.findOne, Event.find], [], [], rfl, by simp [Event.slot], by simp,
              by simp⟩
          · exact ⟨[Event.findOne, Event.find], [], [], rfl, by simp [Event.slot], by simp,
              by simp⟩
        · have h1 := scrapeSlot_trace_slot w 1 (resolvePlatforms ps)[0]? (toLowerCase q) ps store
          rcases hs1 : scrapeSlot w 1 (resolvePlatforms ps)[0]? (toLowerCase q) ps store
            with ⟨o1, store1, trace1⟩
          rw [hs1] at h1
          cases o1 with
          | none =>
            exact ⟨[Event.findOne], trace1, [], by simp, by simp [Event.slot], h1, by simp⟩
          | some savedP1 =>
            simp only []
            have h2 := scrapeSlot_trace_slot w 2 (resolvePlatforms ps)[1]? (toLowerCase q) ps
              store1
            rcases hs2 : scrapeSlot w 2 (resolvePlatforms ps)[1]? (toLowerCase q) ps store1
              with ⟨o2, store2, trace2⟩
            rw [hs2] at h2
            cases o2 with
            | none =>
              exact ⟨[Event.findOne], trace1, trace2, by simp, by simp [Event.slot], h1, h2⟩
            | some savedP2 =>
              exact ⟨[Event.findOne], trace1, trace2, by simp, by simp [Event.slot], h1, h2⟩

theorem index_lt_of_blocks (reads first second : List Event) (i j : ℕ) (e1 e2 : Event)
    (hreads : ∀ e ∈ reads, e.slot = none) (hfirst : ∀ e ∈ first, e.slot = some 1)
    (hsecond : ∀ e ∈ second, e.slot = some 2)
    (hi : (reads ++ first ++ second)[i]? = some e1) (hj : (reads ++ first ++ second)[j]? = some e2)
    (h1 : e1.slot = some 1) (h2 : e2.slot = some 2) : i < j := by
  have hi2 : i < (reads ++ first).length := by
    by_contra hcon
    rw [List.getElem?_append_right (Nat.le_of_not_lt hcon)] at hi
    have := hsecond e1 (List.getElem?_mem hi)
    rw [h1] at this
    exact absurd this (by decide)
  have hj2 : (reads ++ first).length ≤ j := by
    by_contra hcon
    have hlt : j < (reads ++ first).length := Nat.lt_of_not_le hcon
    rw [List.getElem?_append_left hlt] at hj
    have hmem := List.getElem?_mem hj
    rcases List.mem_append.1 hmem with h | h
    · have := hreads e2 h
      rw [h2] at this
      exact absurd this (by decide)
    · have := hfirst e2 h
      rw [h2] at this
      exact absurd this (by decide)
  omega

/-- C22: in the sequence of effects of `/api/search`, the reads of the cache
check come first, then the adapter call and the writes of the first platform,
then those of the second: every adapter call and every store write of
platform 1 comes before the adapter call of platform 2 (and before its
writes). -/
theorem first_platform_precedes_second (w : World) (req : Request) (store : List ProductDoc) :
    (∃ reads first second, (apiSearch w req store).trace = reads ++ first ++ second ∧
      (∀ e ∈ reads, e.slot = none) ∧ (∀ e ∈ first, e.slot = some 1) ∧
      (∀ e ∈ second, e.slot = some 2)) ∧
    (∀ (i j : ℕ) (e : Event) (name : String),
      (apiSearch w req store).trace[i]? = some e → e.slot = some 1 →
      (apiSearch w req store).trace[j]? = some (Event.scrape 2 name) → i < j) ∧
    (∀ (q platformsString name1 name2 : String) (products1 products2 : List RawProduct),
      req = ⟨some q, some platformsString⟩ → q ≠ "" → platformsString ≠ "" →
      w.findOneFails = false →
      recentResult store (toLowerCase q) platformsString w.now = none →
      scraperMap (resolvePlatforms platformsString)[0]? = MapEntry.scraper name1 →
      w.scrape 1 name1 (toLowerCase q) = AdapterResult.returns products1 →
      scraperMap (resolvePlatforms platformsString)[1]? = MapEntry.scraper name2 →
      w.scrape 2 name2 (toLowerCase q) = AdapterResult.returns products2 →
      (apiSearch w req store).trace
        = [Event.findOne, Event.scrape 1 name1] ++
          (saveProducts w 1 store products1 (toLowerCase q) platformsString 1 2).trace ++
          [Event.scrape 2 name2] ++
          (saveProducts w 2
            (saveProducts w 1 store products1 (toLowerCase q) platformsString 1 2).store
            products2 (toLowerCase q) platformsString 2 2).trace) := by
  refine ⟨apiSearch_trace_blocks w req store, ?_, ?_⟩
  · intro i j e name hi h1 hj
    obtain ⟨reads, first, second, htrace, hr, hf, hs⟩ := apiSearch_trace_blocks w req store
    rw [htrace] at hi hj
    exact index_lt_of_blocks reads first second i j e _ hr hf hs hi hj h1 rfl
  · intro q ps name1 name2 products1 products2 hreq hq hp hfindOne hmiss hmap1 hs1 hmap2 hs2
    subst hreq
    have hq2 : truthyStr (toLowerCase q) = true := by
      rw [truthyStr_iff]
      intro h
      exact hq ((toLowerCase_eq_empty q).1 h)
    have hp2 : truthyStr ps = true := (truthyStr_iff ps).2 hp
    simp [apiSearch, scrapeSlot, hq2, hp2, hfindOne, hmiss, hmap1, hs1, hmap2, hs2]

/-- C22 at the cold search for `phone`: the adapter of platform 1 is called,
its records are deleted-then-inserted, and only then is the adapter of
platform 2 called. -/
theorem first_platform_precedes_second_witness :
    (apiSearch (bothReturn 1000000) phoneRequest []).trace
      = [Event.findOne, Event.scrape 1 "amazon", Event.deleteMany 1, Event.insertMany 1 1,
          Event.scrape 2 "flipkart", Event.deleteMany 2, Event.insertMany 2 1] ∧
    (3 : ℕ) < 4 :=
  ⟨by decide!,
    (first_platform_precedes_second (bothReturn 1000000) phoneRequest []).2.1 3 4
      (Event.insertMany 1 1) "flipkart" (by decide!) rfl (by decide!)⟩

/-! ## Lemmas on the ids of a search -/

theorem slotSaved_ids (w : World) (slot : ℕ) (platform : Option String)
    (query platformsString : String) (saved : List SavedProduct)
    (h : slotSaved w slot platform query platformsString = some saved) :
    saved.Pairwise (fun a b => a.id ≠ b.id) ∧ ∀ p ∈ saved, p.id % 2 = slot % 2 := by
  unfold slotSaved at h
  split at h
  · simp at h
    subst h
    exact ⟨List.Pairwise.nil, by simp⟩
  · simp at h
  · split at h
    · simp at h
    · simp at h
      subst h
      refine ⟨productsToSave_ids_distinct _ _ _ _ _ (by decide), ?_⟩
      intro p hp
      rw [mem_productsToSave] at hp
      obtain ⟨i, raw, _, hreq, _⟩ := hp
      rw [hreq]
      show (slot + i * 2) % 2 = slot % 2
      omega

/-- C26: in the answer of every cold-cache search, the records assembled for
the request's key, no two records share an id. -/
theorem cold_search_ids_distinct (w : World) (q platformsString : String)
    (store : List ProductDoc) (items : List Projected) (hq : q ≠ "")
    (hp : platformsString ≠ "") (hfindOne : w.findOneFails = false)
    (hmiss : recentResult store (toLowerCase q) platformsString w.now = none)
    (hok : (apiSearch w ⟨some q, some platformsString⟩ store).response = Response.ok items) :
    items.Pairwise (fun a b => a.id ≠ b.id) := by
  rw [apiSearch_response w q platformsString store hq hp] at hok
  unfold searchResponse at hok
  rw [hfindOne, hmiss] at hok
  simp only [Bool.false_eq_true, if_false] at hok
  split at hok
  · rename_i savedP1 savedP2 h1 h2
    injection hok with hok
    subst hok
    obtain ⟨hd1, hpar1⟩ := slotSaved_ids _ _ _ _ _ _ h1
    obtain ⟨hd2, hpar2⟩ := slotSaved_ids _ _ _ _ _ _ h2
    rw [List.pairwise_map]
    have happ : (savedP1 ++ savedP2).Pairwise (fun a b : SavedProduct => a.id ≠ b.id) := by
      rw [List.pairwise_append]
      refine ⟨hd1, hd2, ?_⟩
      intro a ha b hb hab
      have e1 := hpar1 a ha
      have e2 := hpar2 b hb
      rw [hab] at e1
      omega
    unfold sortById
    exact happ.perm (List.perm_insertionSort _ _).symm (fun h => Ne.symm h)
  · exact Response.noConfusion hok

/-- C26 at the cold search for `phone`: the answer holds the ids 1 and 2. -/
theorem cold_search_ids_distinct_witness :
    recentResult [] (toLowerCase "phone") "amazon,flipkart" (bothReturn 1000000).now = none ∧
    (apiSearch (bothReturn 1000000) ⟨some "phone", some "amazon,flipkart"⟩ []).response
      = Response.ok [projectedA, projectedB] ∧
    [projectedA, projectedB].Pairwise (fun a b => a.id ≠ b.id) :=
  ⟨by decide!, by decide!,
    cold_search_ids_distinct (bothReturn 1000000) "phone" "amazon,flipkart" []
      [projectedA, projectedB] (by decide) (by decide) rfl (by decide!) (by decide!)⟩

/-- C28: whatever the collection and the call, the documents whose
`searchQuery` or `searchPlatforms` differs from the key of the call, the
lowercased query and the platforms string, are the same after `saveProducts`
as before, in the same order: the delete removes documents of that exact key
only, and the insert adds documents of that key only. -/
theorem saveProducts_keeps_other_keys (w : World) (slot : ℕ) (store : List ProductDoc)
    (products : List RawProduct) (query platformsString : String) (startId step : ℕ) :
    (saveProducts w slot store products query platformsString startId step).store.filter
        (fun d => !matchesKey (toLowerCase query) platformsString d)
      = store.filter (fun d => !matchesKey (toLowerCase query) platformsString d) ∧
    (∀ d : ProductDoc,
      ¬ (d.searchQuery = toLowerCase query ∧ d.searchPlatforms = platformsString) →
      (d ∈ (saveProducts w slot store products query platformsString startId step).store
        ↔ d ∈ store)) := by
  have hlist : deleteMany
      (saveProducts w slot store products query platformsString startId step).store
      (toLowerCase query) platformsString
      = deleteMany store (toLowerCase query) platformsString := by
    rw [saveProducts_store]
    split
    · rfl
    · split
      · rfl
      · split
        · exact deleteMany_deleteMany _ _ _
        · obtain ⟨l, h1, h2, _, _⟩ := insertMany_eq_append
            (deleteMany store (toLowerCase query) platformsString)
            (stampedDocs w slot (productsToSave products query platformsString startId step))
          rw [h1, deleteMany_append, deleteMany_deleteMany, deleteMany_of_all_match l,
            List.append_nil]
          intro d hd
          exact stampedDocs_key w slot products query platformsString startId step d
            (h2.subset hd)
  refine ⟨hlist, ?_⟩
  intro d hd
  have hk : matchesKey (toLowerCase query) platformsString d = false := by
    rw [← Bool.not_eq_true, matchesKey_iff]
    exact hd
  have h1 := mem_deleteMany
    (saveProducts w slot store products query platformsString startId step).store
    (toLowerCase query) platformsString d
  have h2 := mem_deleteMany store (toLowerCase query) platformsString d
  rw [hlist] at h1
  constructor
  · intro h
    exact (h2.1 (h1.2 ⟨h, hk⟩)).1
  · intro h
    exact (h1.1 (h2.2 ⟨h, hk⟩)).1

/-- C28 at a collection holding a document of the search `laptop` and a prior
document of the search `phone`: after `saveProducts` for `phone` the document
of `laptop` is still there. -/
theorem saveProducts_keeps_other_keys_witness :
    ¬ (docLaptop.searchQuery = toLowerCase "phone" ∧
      docLaptop.searchPlatforms = "amazon,flipkart") ∧
    docLaptop ∈ (saveProducts (bothReturn 1000000) 2 [docLaptop, docA 5] [rawB]
      "phone" "amazon,flipkart" 2 2).store :=
  ⟨by decide,
    ((saveProducts_keeps_other_keys (bothReturn 1000000) 2 [docLaptop, docA 5] [rawB]
      "phone" "amazon,flipkart" 2 2).2 docLaptop (by decide)).2 (List.mem_cons_self _ _)⟩

/-- C24 as stated fails: called for the platform `amazon` with the listing
`A`, whose adapter labelled it `Amazon`, `saveProducts` returns a record whose
platform is `Amazon`, not the argument. -/
theorem platform_is_the_adapter_label :
    (saveProductsCall (bothReturn 1000000) 1 [] [rawA] "amazon" "phone" "amazon,flipkart"
      1 2).saved.map SavedProduct.platform = ["Amazon"] ∧
    "Amazon" ≠ "amazon" := by
  decide!

/-- C24, amended: every record that `saveProducts` returns has the platform of
the raw record it was assembled from, whatever the `platform` argument, its
`searchQuery` is the lowercased query and its `searchPlatforms` is
`platformsString`. -/
theorem saved_record_label_and_key (w : World) (slot : ℕ) (store : List ProductDoc)
    (products : List RawProduct) (platform query platformsString : String)
    (startId step : ℕ) :
    (∀ r ∈ (saveProductsCall w slot store products platform query platformsString
        startId step).saved,
      (∃ i raw, products[i]? = some raw ∧ r.id = startId + i * step ∧
        r.platform = raw.platform) ∧
      r.searchQuery = toLowerCase query ∧ r.searchPlatforms = platformsString) ∧
    (∀ other : String,
      (saveProductsCall w slot store products other query platformsString startId step).saved
        = (saveProductsCall w slot store products platform query platformsString
            startId step).saved) := by
  refine ⟨?_, fun _ => rfl⟩
  intro r hr
  unfold saveProductsCall at hr
  rw [saveProducts_saved, mem_productsToSave] at hr
  obtain ⟨i, raw, hi, hreq, _⟩ := hr
  rw [hreq]
  exact ⟨⟨i, raw, hi, rfl, rfl⟩, rfl, rfl⟩

/-- C24, amended, at the call for `amazon` with the listing `A`. -/
theorem saved_record_label_and_key_witness :
    assembleOne "Phone" "amazon,flipkart" 1 2 rawA 0 ∈
      (saveProductsCall (bothReturn 1000000) 1 [] [rawA] "amazon" "Phone" "amazon,flipkart"
        1 2).saved ∧
    (assembleOne "Phone" "amazon,flipkart" 1 2 rawA 0).searchQuery = toLowerCase "Phone" ∧
    (assembleOne "Phone" "amazon,flipkart" 1 2 rawA 0).searchPlatforms = "amazon,flipkart" :=
  ⟨by decide!,
    ((saved_record_label_and_key (bothReturn 1000000) 1 [] [rawA] "amazon" "Phone"
      "amazon,flipkart" 1 2).1 _ (by decide!)).2⟩

/-- C25 as stated fails: with a clock that advances by a millisecond between
the two documents of one call, the documents persisted by that call carry
different `searchedAt` values. -/
theorem batch_documents_differ_in_stamp :
    (saveProducts (tickingClock 1000000) 1 [] [rawA, rawA] "phone" "amazon,flipkart"
      1 2).store.map ProductDoc.searchedAt = [1000000, 1000001] := by
  decide!

/-- C25, amended: the records `saveProducts` returns carry no `searchedAt`;
every document the call adds to the collection is built from a returned
record and carries as `searchedAt` the clock reading taken when that document
was built, so the documents of one call carry the same value whenever the
clock reads the same for all of them. -/
theorem persisted_stamp_is_the_clock_reading (w : World) (slot : ℕ)
    (store : List ProductDoc) (products : List RawProduct) (query platformsString : String)
    (startId step : ℕ) :
    (∀ d ∈ (saveProducts w slot store products query platformsString startId step).store,
      d ∈ store ∨
      ∃ i p, (saveProducts w slot store products query platformsString startId step).saved[i]?
          = some p ∧ docRecord d = p ∧ d.searchedAt = w.stamp slot i) ∧
    (∀ t : ℤ, (∀ i, w.stamp slot i = t) →
      ∀ d ∈ (saveProducts w slot store products query platformsString startId step).store,
        d ∈ store ∨ d.searchedAt = t) := by
  have h1 : ∀ d ∈ (saveProducts w slot store products query platformsString startId step).store,
      d ∈ store ∨
      ∃ i p, (saveProducts w slot store products query platformsString startId step).saved[i]?
          = some p ∧ docRecord d = p ∧ d.searchedAt = w.stamp slot i := by
    intro d hd
    rcases mem_saveProducts_store _ _ _ _ _ _ _ _ _ hd with h | h
    · exact Or.inl h
    · right
      unfold stampedDocs at h
      rw [mem_mapIndexFrom] at h
      obtain ⟨i, p, hi, hd2⟩ := h
      rw [saveProducts_saved]
      refine ⟨i, p, hi, ?_, ?_⟩
      · rw [hd2]
        rfl
      · rw [hd2]
        simp [toDoc]
  refine ⟨h1, ?_⟩
  intro t ht d hd
  rcases h1 d hd with h | ⟨i, _, _, _, hs⟩
  · exact Or.inl h
  · right
    rw [hs, ht i]

/-- C25, amended, at a call whose clock reads 1000000 throughout: both
documents carry that value. -/
theorem persisted_stamp_is_the_clock_reading_witness :
    (∀ i, (bothReturn 1000000).stamp 1 i = 1000000) ∧
    (saveProducts (bothReturn 1000000) 1 [] [rawA, rawA] "phone" "amazon,flipkart"
      1 2).store.map ProductDoc.searchedAt = [1000000, 1000000] ∧
    ∀ d ∈ (saveProducts (bothReturn 1000000) 1 [] [rawA, rawA] "phone" "amazon,flipkart"
        1 2).store, d ∈ ([] : List ProductDoc) ∨ d.searchedAt = 1000000 :=
  ⟨fun _ => rfl, by decide!,
    (persisted_stamp_is_the_clock_reading (bothReturn 1000000) 1 [] [rawA, rawA] "phone"
      "amazon,flipkart" 1 2).2 1000000 (fun _ => rfl)⟩

/-! ## Lemmas on the history -/

theorem foldl_max_spec (ts : List ℤ) (t : ℤ) :
    ts.foldl max t ∈ t :: ts ∧ ∀ x ∈ t :: ts, x ≤ ts.foldl max t := by
  induction ts generalizing t with
  | nil => simp
  | cons u us ih =>
    obtain ⟨h1, h2⟩ := ih (max t u)
    rw [List.foldl_cons]
    constructor
    · rcases List.mem_cons.1 h1 with h | h
      · rw [h]
        rcases max_choice t u with hm | hm
        · rw [hm]
          simp
        · rw [hm]
          simp
      · simp [h]
    · intro x hx
      rcases List.mem_cons.1 hx with h | h
      · rw [h]
        exact le_trans (le_max_left t u) (h2 _ (List.mem_cons_self _ _))
      · rcases List.mem_cons.1 h with h3 | h3
        · rw [h3]
          exact le_trans (le_max_right t u) (h2 _ (List.mem_cons_self _ _))
        · exact h2 x (List.mem_cons_of_mem _ h3)

theorem latestOf_spec (store : List ProductDoc) (query : String)
    (h : ∃ d ∈ store, d.searchQuery = query) :
    (∃ d ∈ store, d.searchQuery = query ∧ d.searchedAt = latestOf store query) ∧
    ∀ d ∈ store, d.searchQuery = query → d.searchedAt ≤ latestOf store query := by
  have hmem : ∀ x : ℤ, x ∈ (store.filter (fun d => d.searchQuery = query)).map
      ProductDoc.searchedAt ↔ ∃ d ∈ store, d.searchQuery = query ∧ d.searchedAt = x := by
    intro x
    rw [List.mem_map]
    constructor
    · rintro ⟨d, hd, hx⟩
      rw [List.mem_filter] at hd
      exact ⟨d, hd.1, by simpa using hd.2, hx⟩
    · rintro ⟨d, hd, hq, hx⟩
      exact ⟨d, List.mem_filter.2 ⟨hd, by simpa using hq⟩, hx⟩
  unfold latestOf
  cases hl : (store.filter (fun d => d.searchQuery = query)).map ProductDoc.searchedAt with
  | nil =>
    obtain ⟨d, hd, hq⟩ := h
    have := (hmem d.searchedAt).2 ⟨d, hd, hq, rfl⟩
    rw [hl] at this
    simp at this
  | cons t ts =>
    rw [hl] at hmem
    obtain ⟨h1, h2⟩ := foldl_max_spec ts t
    simp only []
    constructor
    · obtain ⟨d, hd, hq, hx⟩ := (hmem _).1 h1
      exact ⟨d, hd, hq, hx⟩
    · intro d hd hq
      exact h2 _ ((hmem _).2 ⟨d, hd, hq, rfl⟩)

theorem mem_groupStage (store : List ProductDoc) (g : QueryGroup) :
    g ∈ groupStage store ↔
      (∃ d ∈ store, d.searchQuery = g.query) ∧ g.latest = latestOf store g.query := by
  unfold groupStage
  rw [List.mem_map]
  constructor
  · rintro ⟨q, hq, rfl⟩
    rw [List.mem_dedup, List.mem_map] at hq
    exact ⟨hq, rfl⟩
  · rintro ⟨hd, hl⟩
    refine ⟨g.query, ?_, ?_⟩
    · rw [List.mem_dedup, List.mem_map]
      exact hd
    · cases g
      simp only [QueryGroup.mk.injEq, true_and]
      exact hl.symm

theorem groupStage_queries_nodup (store : List ProductDoc) :
    ((groupStage store).map QueryGroup.query).Nodup := by
  unfold groupStage
  rw [List.map_map]
  have : (QueryGroup.query ∘ fun q => QueryGroup.mk q (latestOf store q)) = id := by
    funext q
    rfl
  rw [this, List.map_id]
  exact List.nodup_dedup _

/-- Whatever order the database gives to the groups, as long as it is by
`latest` descending, the first four queries are a history of recent queries. -/
theorem recentQueries_of_sorted_groups (store : List ProductDoc) (groups : List QueryGroup)
    (hperm : groups.Perm (groupStage store))
    (hsorted : groups.Pairwise (fun a b => b.latest ≤ a.latest)) :
    RecentQueries store (limitAndProject groups) := by
  have hgroup : ∀ g ∈ groups,
      (∃ d ∈ store, d.searchQuery = g.query) ∧ g.latest = latestOf store g.query :=
    fun g hg => (mem_groupStage store g).1 (hperm.subset hg)
  have hsplit : groups.take 4 ++ groups.drop 4 = groups := List.take_append_drop 4 groups
  have hnodup : (groups.map QueryGroup.query).Nodup :=
    (hperm.map QueryGroup.query).nodup_iff.2 (groupStage_queries_nodup store)
  have hrel : ∀ g1 g2 : QueryGroup, g1 ∈ groups → g2 ∈ groups → g2.latest ≤ g1.latest →
      ∃ d1 ∈ store, d1.searchQuery = g1.query ∧
        ∀ d2 ∈ store, d2.searchQuery = g2.query → d2.searchedAt ≤ d1.searchedAt := by
    intro g1 g2 hg1 hg2 hle
    obtain ⟨hex1, hl1⟩ := hgroup g1 hg1
    obtain ⟨hex2, hl2⟩ := hgroup g2 hg2
    obtain ⟨⟨d1, hd1, hq1, ht1⟩, _⟩ := latestOf_spec store g1.query hex1
    refine ⟨d1, hd1, hq1, ?_⟩
    intro d2 hd2 hq2
    have := (latestOf_spec store g2.query hex2).2 d2 hd2 hq2
    rw [ht1, ← hl1]
    rw [← hl2] at this
    exact le_trans this hle
  unfold RecentQueries limitAndProject
  refine ⟨?_, ?_, ?_, ?_, ?_⟩
  · rw [List.length_map, List.length_take]
    exact Nat.min_le_left _ _
  · rw [List.map_take]
    exact hnodup.sublist (List.take_sublist 4 _)
  · intro q hq
    rw [List.mem_map] at hq
    obtain ⟨g, hg, rfl⟩ := hq
    exact (hgroup g (List.mem_of_mem_take hg)).1
  · rw [List.pairwise_map]
    have hp : (groups.take 4).Pairwise (fun a b => b.latest ≤ a.latest) :=
      hsorted.sublist (List.take_sublist 4 _)
    have hp2 : (groups.take 4).Pairwise
        (fun a b => (a ∈ groups ∧ b ∈ groups) ∧ b.latest ≤ a.latest) := by
      rw [List.pairwise_and_iff]
      refine ⟨?_, hp⟩
      rw [List.pairwise_iff_forall_sublist]
      intro a b hab
      have ha : a ∈ groups.take 4 := hab.subset (List.mem_cons_self _ _)
      have hb : b ∈ groups.take 4 := hab.subset (by simp)
      exact ⟨List.mem_of_mem_take ha, List.mem_of_mem_take hb⟩
    exact hp2.imp (fun {a b} h => hrel a b h.1.1 h.1.2 h.2)
  · intro d hd hnot r hr
    rw [List.mem_map] at hr
    obtain ⟨gr, hgr, rfl⟩ := hr
    have hgd : QueryGroup.mk d.searchQuery (latestOf store d.searchQuery) ∈ groups :=
      hperm.symm.subset ((mem_groupStage store _).2 ⟨⟨d, hd, rfl⟩, rfl⟩)
    have hdrop : QueryGroup.mk d.searchQuery (latestOf store d.searchQuery) ∈ groups.drop 4 := by
      rw [← hsplit, List.mem_append] at hgd
      rcases hgd with h | h
      · exact absurd (List.mem_map_of_mem QueryGroup.query h) hnot
      · exact h
    have hsorted2 := hsorted
    rw [← hsplit, List.pairwise_append] at hsorted2
    have hle := hsorted2.2.2 gr hgr _ hdrop
    exact hrel gr _ (List.mem_of_mem_take hgr) (List.mem_of_mem_drop hdrop) hle

theorem sortStage_perm (groups : List QueryGroup) : (sortStage groups).Perm groups :=
  List.perm_insertionSort _ groups

theorem sortStage_sorted (groups : List QueryGroup) :
    (sortStage groups).Pairwise (fun a b => b.latest ≤ a.latest) := by
  haveI : IsTotal QueryGroup (fun a b => b.latest ≤ a.latest) :=
    ⟨fun a b => le_total b.latest a.latest⟩
  haveI : IsTrans QueryGroup (fun a b => b.latest ≤ a.latest) :=
    ⟨fun _ _ _ h1 h2 => le_trans h2 h1⟩
  exact List.sorted_insertionSort (fun a b : QueryGroup => b.latest ≤ a.latest) groups

/-- C21: when the aggregation succeeds, `/api/user/history` answers with at
most 4 query strings, pairwise distinct, each the `searchQuery` of a persisted
document, in descending order of the maximum `searchedAt` of their documents,
and no query left out has a later maximum than a returned one; this holds for
every order that the database may give to groups of equal recency. -/
theorem history_is_the_recent_queries (store : List ProductDoc) :
    (∃ queries, apiUserHistory false store = HistoryResponse.ok queries ∧
      RecentQueries store queries) ∧
    (∀ groups : List QueryGroup, groups.Perm (groupStage store) →
      groups.Pairwise (fun a b => b.latest ≤ a.latest) →
      RecentQueries store (limitAndProject groups)) := by
  refine ⟨⟨limitAndProject (sortStage (groupStage store)), rfl, ?_⟩,
    fun groups hperm hsorted => recentQueries_of_sorted_groups store groups hperm hsorted⟩
  exact recentQueries_of_sorted_groups store _ (sortStage_perm _) (sortStage_sorted _)

/-- C21 at a collection with five searches: the four most recent are
returned, most recent first, and the least recent, `d`, is left out. -/
theorem history_is_the_recent_queries_witness :
    apiUserHistory false fiveSearches = HistoryResponse.ok ["a", "c", "e", "b"] ∧
    ∃ queries, apiUserHistory false fiveSearches = HistoryResponse.ok queries ∧
      RecentQueries fiveSearches queries :=
  ⟨by decide!, (history_is_the_recent_queries fiveSearches).1⟩


/-! ## Repeated parameters and dropped records -/

/-- On a query string whose parameters are each absent or a single string the
handler is `apiSearch`. -/
theorem apiSearchExpress_ofOption (w : World) (req : Request) (store : List ProductDoc) :
    apiSearchExpress w ⟨QueryParam.ofOption req.q, QueryParam.ofOption req.platforms⟩ store
      = some (apiSearch w req store) := by
  obtain ⟨q, platforms⟩ := req
  cases q with
  | none => cases platforms <;> simp [apiSearchExpress, QueryParam.ofOption, apiSearch]
  | some q => cases platforms <;> simp [apiSearchExpress, QueryParam.ofOption]

/-- On any query string, the handler answers 400 exactly when `q` is absent
or the empty string, or `q` is a string and `platforms` is absent or the
empty string; a `q` that is an array or an object is never answered by the
handler, whatever `platforms` is. -/
theorem apiSearchExpress_badRequest_iff (w : World) (req : ExpressRequest)
    (store : List ProductDoc) :
    ((apiSearchExpress w req store).map Outcome.response = some Response.badRequest ↔
      (req.q = QueryParam.absent ∨ req.q = QueryParam.text "" ∨
        ((∃ q, req.q = QueryParam.text q) ∧
          (req.platforms = QueryParam.absent ∨ req.platforms = QueryParam.text "")))) ∧
    ((∀ q, req.q ≠ QueryParam.text q) → req.q ≠ QueryParam.absent →
      apiSearchExpress w req store = none) := by
  obtain ⟨q, platforms⟩ := req
  cases q with
  | absent => simp [apiSearchExpress]
  | array l => simp [apiSearchExpress]
  | object => simp [apiSearchExpress]
  | text q =>
    have key : ∀ ps : Option String,
        ((apiSearch w ⟨some q, ps⟩ store).response = Response.badRequest ↔
          (q = "" ∨ ps = none ∨ ps = some "")) := by
      intro ps
      have h := (apiSearch_badRequest_iff w ⟨some q, ps⟩ store).1
      simpa using h
    cases platforms with
    | absent =>
      have h := key none
      simp [apiSearchExpress]
      simpa using h
    | text ps =>
      have h := key (some ps)
      simp [apiSearchExpress]
      simpa using h
    | array l =>
      by_cases hq : q = ""
      · subst hq
        simp [apiSearchExpress, toLowerCase, truthyStr]
      · have hq2 : truthyStr (toLowerCase q) = true := by
          rw [truthyStr_iff]
          intro h
          exact hq ((toLowerCase_eq_empty q).1 h)
        simp [apiSearchExpress, hq2, hq]
    | object =>
      by_cases hq : q = ""
      · subst hq
        simp [apiSearchExpress, toLowerCase, truthyStr]
      · have hq2 : truthyStr (toLowerCase q) = true := by
          rw [truthyStr_iff]
          intro h
          exact hq ((toLowerCase_eq_empty q).1 h)
        simp [apiSearchExpress, hq2, hq]

/-- C10: the request `GET /api/search?q=a&q=b`, which has no `platforms`
parameter, is not answered 400. Express parses the repeated `q` to the array
`['a', 'b']`, the call `.toLowerCase()` of line 88 throws before the guard of
line 91 is reached and outside the `try`, so the handler sends no answer;
the same request with the single parameter `q=a` is answered 400. -/
theorem repeated_q_without_platforms_is_not_answered_400 :
    apiSearchExpress (bothReturn 1000000)
      ⟨QueryParam.array ["a", "b"], QueryParam.absent⟩ [] = none ∧
    (apiSearchExpress (bothReturn 1000000)
      ⟨QueryParam.array ["a", "b"], QueryParam.absent⟩ []).map Outcome.response
        ≠ some Response.badRequest ∧
    (apiSearchExpress (bothReturn 1000000)
      ⟨QueryParam.text "a", QueryParam.absent⟩ []).map Outcome.response
        = some Response.badRequest := by
  refine ⟨rfl, ?_, ?_⟩
  · simp [apiSearchExpress]
  · simp [apiSearchExpress, apiSearch]

/-- C1: on a cold search in which the first adapter returns `[A, nameless, A]`
and the second `[B, B, B]` (sizes 3 and 3), the nameless record is dropped
after the ids are assigned by raw position. The answer, sorted by id, has the
ids 1, 2, 4, 5, 6 and the platforms Amazon, Flipkart, Flipkart, Amazon,
Flipkart: two records of the second platform stand next to each other, and
the first `2 * min 3 3` elements of the sorted union do not alternate. -/
theorem dropped_record_breaks_interleaving :
    (apiSearch (namelessInTheMiddle 1000000) phoneRequest []).response
      = Response.ok
          [projectedA, projectedB, { projectedB with id := 4 },
            { projectedA with id := 5 }, { projectedB with id := 6 }] ∧
    ¬ Alternates
      (sortById SavedProduct.id
        ((saveProducts (namelessInTheMiddle 1000000) 1 [] [rawA, rawNameless, rawA]
            "phone" "amazon,flipkart" 1 2).saved ++
          (saveProducts (namelessInTheMiddle 1000000) 2 [] [rawB, rawB, rawB]
            "phone" "amazon,flipkart" 2 2).saved))
      (saveProducts (namelessInTheMiddle 1000000) 1 [] [rawA, rawNameless, rawA]
        "phone" "amazon,flipkart" 1 2).saved
      (saveProducts (namelessInTheMiddle 1000000) 2 [] [rawB, rawB, rawB]
        "phone" "amazon,flipkart" 2 2).saved
      (2 * min 3 3) := by
  refine ⟨by decide!, ?_⟩
  intro h
  have h2 := h 2 (by decide)
  revert h2
  decide!

end PriceHub
